import Mathlib

/-!
# tensorrt-cpp-server: buffers and the MNIST inference pipeline

A shallow embedding of `src/buffers.h` (`getElementSize`, `divUp`, `volume`,
`GenericBuffer`, `BufferManager`), of the inference pipeline of `src/mnist.cpp`
(`locateFile`, `Inference::Build`, `Inference::Infer`, `Inference::verifyOutput`,
`MnistApi::infer`) and of the upload path of `src/server.cpp` (`parsePGMData`,
`handleUpload`).

Conventions of the embedding:

* `size_t` values are natural numbers; every `size_t` product is reduced
  modulo `2 ^ 64` at the place where the C++ code multiplies.
* Signed integers (`int32_t`, `int64_t`) are `Int`; a conversion to `size_t`
  is `toSizeT`, reduction modulo `2 ^ 64`. Signed overflow is undefined
  behaviour in C++ and is not given a meaning here.
* A pointer is a natural number, `0` is `nullptr`.
* The allocation strategy (`AllocFunc`, `FreeFunc` template parameters) is
  external: it is a parameter of the model, and every call of it is recorded
  in a call log (`Heap`).
* `throw std::bad_alloc` is the result `none`.
* Strings of bytes read from a request are lists of `UInt8`; paths are `String`s
  and the file system is a predicate that tells whether a path opens.
-/

namespace TrtServer

/-! ## Machine integers and pointers -/

/-- Number of values of `size_t` on the 64-bit target. -/
def SIZE_MOD : Nat := 2 ^ 64

/-- Conversion of a signed integer to `size_t` (`static_cast<size_t>` and the
implicit conversions of mixed arithmetic): reduction modulo `2 ^ 64`. -/
def toSizeT (x : Int) : Nat := (x % (SIZE_MOD : Int)).toNat

/-- Product of two `size_t` values. -/
def mulSizeT (a b : Nat) : Nat := (a * b) % SIZE_MOD

/-- Raw pointers (`void*`). -/
abbrev Ptr := Nat

/-- The null pointer. -/
def nullptr : Ptr := 0

/-! ## Element types -/

/-- Values of `enum class nvinfer1::DataType : int32_t`: an enumeration value is
its integer code. The enumerators are those of TensorRT's `NvInfer.h`. -/
structure DataType where
  code : Int
  deriving DecidableEq, Repr

namespace DataType

def kFLOAT : DataType := ⟨0⟩
def kHALF : DataType := ⟨1⟩
def kINT8 : DataType := ⟨2⟩
def kINT32 : DataType := ⟨3⟩
def kBOOL : DataType := ⟨4⟩
def kUINT8 : DataType := ⟨5⟩
def kFP8 : DataType := ⟨6⟩
def kBF16 : DataType := ⟨7⟩
def kINT64 : DataType := ⟨8⟩
def kINT4 : DataType := ⟨9⟩

end DataType

open DataType in
/-- The function `getElementSize` of `buffers.h`: a `switch` over nine enumerators
and `return 0` after it (the `kINT4` case is commented out in the source). -/
def getElementSize (t : DataType) : Nat :=
  if t = kINT64 then 8
  else if t = kINT32 ∨ t = kFLOAT then 4
  else if t = kBF16 ∨ t = kHALF then 2
  else if t = kBOOL ∨ t = kUINT8 ∨ t = kINT8 ∨ t = kFP8 then 1
  else 0

/-! ## The allocation strategy and its call log -/

/-- One call of the allocation strategy of a `GenericBuffer`. -/
inductive MemEvent
  | alloc (bytes : Nat) (result : Option Ptr)
  | free (p : Ptr)
  deriving DecidableEq, Repr

/-- The calls made so far, oldest first. -/
abbrev Heap := List MemEvent

/-- The template parameter `AllocFunc`: what `allocFn(&p, bytes)` does after the
calls of the log. `none`: it returns `false`; `some q`: it returns `true`
and has stored `q` in `p`. -/
abbrev AllocFunc := Heap → Nat → Option Ptr

/-- A call `allocFn(&p, bytes)`: the result and the extended log. -/
def allocFn (a : AllocFunc) (h : Heap) (bytes : Nat) : Option Ptr × Heap :=
  (a h bytes, h ++ [MemEvent.alloc bytes (a h bytes)])

/-- A call `freeFn(p)`. -/
def freeFn (h : Heap) (p : Ptr) : Heap :=
  h ++ [MemEvent.free p]

/-- The class `HostAllocator`: `*ptr = malloc(size); return *ptr != nullptr`,
for a given behaviour of `malloc`. -/
def HostAllocator (malloc : Heap → Nat → Ptr) : AllocFunc :=
  fun h size => if malloc h size ≠ nullptr then some (malloc h size) else none

/-- The class `DeviceAllocator`: `cudaMalloc(ptr, size) == cudaSuccess`, for a
given behaviour of `cudaMalloc` (`none` is an error status). -/
def DeviceAllocator (cudaMalloc : Heap → Nat → Option Ptr) : AllocFunc :=
  fun h size => cudaMalloc h size

/-! ## GenericBuffer -/

/-- The data members of `GenericBuffer`. -/
structure GenericBuffer where
  mSize : Nat
  mCapacity : Nat
  mType : DataType
  mBuffer : Ptr
  deriving DecidableEq, Repr

namespace GenericBuffer

/-- The constructor `GenericBuffer(type)`: an empty buffer. -/
def empty (type : DataType) : GenericBuffer :=
  { mSize := 0, mCapacity := 0, mType := type, mBuffer := nullptr }

/-- The default constructor, `type = DataType::kFLOAT`. -/
def default : GenericBuffer := empty DataType.kFLOAT

/-- The member `data()`. -/
def data (b : GenericBuffer) : Ptr := b.mBuffer

/-- The member `size()`. -/
def size (b : GenericBuffer) : Nat := b.mSize

/-- The member `nbBytes()`: `size() * getElementSize(mType)` in `size_t`. -/
def nbBytes (b : GenericBuffer) : Nat :=
  mulSizeT b.size (getElementSize b.mType)

/-- The constructor `GenericBuffer(size, type)`; `none` is `throw std::bad_alloc`. -/
def construct (a : AllocFunc) (size : Nat) (type : DataType) (h : Heap) :
    Option (GenericBuffer × Heap) :=
  let b0 : GenericBuffer := { mSize := size, mCapacity := size, mType := type, mBuffer := nullptr }
  match allocFn a h b0.nbBytes with
  | (none, _) => none
  | (some p, h1) => some ({ b0 with mBuffer := p }, h1)

/-- The move constructor `GenericBuffer(GenericBuffer&& buf)`: the new object
and the source afterwards. -/
def moveConstruct (buf : GenericBuffer) : GenericBuffer × GenericBuffer :=
  ({ mSize := buf.mSize, mCapacity := buf.mCapacity, mType := buf.mType, mBuffer := buf.mBuffer },
   { mSize := 0, mCapacity := 0, mType := DataType.kFLOAT, mBuffer := nullptr })

/-- The move assignment `operator=(GenericBuffer&& buf)` for `this != &buf`: the
destination and the source afterwards, and the log. The source keeps its
`mType`: the code resets `mSize`, `mCapacity` and `mBuffer` only. -/
def moveAssign (self buf : GenericBuffer) (h : Heap) : GenericBuffer × GenericBuffer × Heap :=
  let h1 := freeFn h self.mBuffer
  ({ mSize := buf.mSize, mCapacity := buf.mCapacity, mType := buf.mType, mBuffer := buf.mBuffer },
   { buf with mSize := 0, mCapacity := 0, mBuffer := nullptr },
   h1)

/-- The member `resize(newSize)`; `none` is `throw std::bad_alloc`. -/
def resize (a : AllocFunc) (b : GenericBuffer) (newSize : Nat) (h : Heap) :
    Option (GenericBuffer × Heap) :=
  let b1 : GenericBuffer := { b with mSize := newSize }
  if b1.mCapacity < newSize then
    let h1 := freeFn h b1.mBuffer
    match allocFn a h1 b1.nbBytes with
    | (none, _) => none
    | (some p, h2) => some ({ b1 with mBuffer := p, mCapacity := newSize }, h2)
  else
    some (b1, h)

/-- The destructor: `freeFn(mBuffer)`. -/
def destroy (b : GenericBuffer) (h : Heap) : Heap := freeFn h b.mBuffer

end GenericBuffer

/-! ## Shapes -/

/-- The extents `d[0 .. nbDims)` of an `nvinfer1::Dims`. -/
abbrev Dims := List Int

/-- The function `divUp` of `buffers.h`: `(x + n - 1) / n` with the truncating
division of C++. -/
def divUp (x n : Int) : Int := Int.tdiv (x + n - 1) n

/-- The function `volume` of `buffers.h`: `std::accumulate` with
`std::multiplies` from `1`. -/
def volume (d : Dims) : Int := d.foldl (fun acc x => acc * x) 1

/-! ## The engine interface -/

/-- The values of `nvinfer1::TensorIOMode`. -/
inductive TensorIOMode
  | kNONE | kINPUT | kOUTPUT
  deriving DecidableEq, Repr

/-- The queries of `nvinfer1::ICudaEngine` that `BufferManager` uses. The engine
is external: its answers are the fields. `ioTensorNames` lists
`getIOTensorName(i)` for `i < getNbIOTensors()`. -/
structure ICudaEngine where
  ioTensorNames : List String
  getTensorShape : String → Dims
  getTensorDataType : String → DataType
  getTensorVectorizedDim : String → Int
  getTensorComponentsPerElement : String → Int
  getTensorIOMode : String → TensorIOMode

/-- The query `IExecutionContext::getTensorShape`; `none` is a null context. -/
abbrev ContextShapes := Option (String → Dims)

/-! ## BufferManager -/

/-- The class `ManagedBuffer`. -/
structure ManagedBuffer where
  deviceBuffer : GenericBuffer
  hostBuffer : GenericBuffer
  deriving DecidableEq, Repr

/-- A `ManagedBuffer` after `new ManagedBuffer()`: two default-constructed buffers. -/
def ManagedBuffer.fresh : ManagedBuffer :=
  { deviceBuffer := GenericBuffer.default, hostBuffer := GenericBuffer.default }

/-- The map `std::unordered_map<std::string, int32_t>` as a list of entries with
pairwise different keys. -/
abbrev NameMap := List (String × Nat)

/-- The lookup `mNames.find(name)`; `none` is `mNames.end()`. -/
def NameMap.find : NameMap → String → Option Nat
  | [], _ => none
  | (k, v) :: rest, name => if k = name then some v else NameMap.find rest name

/-- The assignment `mNames[name] = i`: the entry of `name` is overwritten, or a
new entry is added. -/
def NameMap.assign : NameMap → String → Nat → NameMap
  | [], name, i => [(name, i)]
  | (k, v) :: rest, name, i =>
    if k = name then (name, i) :: rest else (k, v) :: NameMap.assign rest name i

/-- The data members of `BufferManager`. -/
structure BufferManager where
  mEngine : ICudaEngine
  mBatchSize : Int
  mManagedBuffers : List ManagedBuffer
  mDeviceBindings : List Ptr
  mNames : NameMap

/-- The call logs of the device and of the host allocation strategy. -/
structure World where
  dev : Heap
  host : Heap
  deriving DecidableEq, Repr

namespace BufferManager

/-- The constant `kINVALID_SIZE_VALUE = ~size_t(0)`. -/
def kINVALID_SIZE_VALUE : Nat := SIZE_MOD - 1

/-- The shape the constructor works on:
`context ? context->getTensorShape(name) : mEngine->getTensorShape(name)`. -/
def queriedDims (e : ICudaEngine) (context : ContextShapes) (name : String) : Dims :=
  match context with
  | some c => c name
  | none => e.getTensorShape name

/-- The initial `vol` of the constructor:
`context || !mBatchSize ? 1 : static_cast<size_t>(mBatchSize)`. -/
def batchFactor (batchSize : Int) (context : ContextShapes) : Nat :=
  if context.isSome || batchSize == 0 then 1 else toSizeT batchSize

/-- The element count `vol` that the constructor computes for the tensor `name`
(lines 240 to 249 of `buffers.h`). -/
def elementCount (e : ICudaEngine) (batchSize : Int) (context : ContextShapes)
    (name : String) : Nat :=
  let dims := queriedDims e context name
  let vol := batchFactor batchSize context
  let vecDim := e.getTensorVectorizedDim name
  if -1 ≠ vecDim then
    let scalarsPerVec := e.getTensorComponentsPerElement name
    let dims1 := dims.set vecDim.toNat (divUp (dims.getD vecDim.toNat 0) scalarsPerVec)
    let vol1 := mulSizeT vol (toSizeT scalarsPerVec)
    mulSizeT vol1 (toSizeT (volume dims1))
  else
    mulSizeT vol (toSizeT (volume dims))

/-- One iteration of the constructor's loop, for the tensor `name` of index `i`.
Each of the two assignments `manBuf->xBuffer = XBuffer(vol, type)` constructs a
temporary, move-assigns it and destroys the temporary. `none`: a
`std::bad_alloc` leaves the constructor. -/
def addTensor (aDev aHost : AllocFunc) (context : ContextShapes) (i : Nat) (name : String)
    (bm : BufferManager) (w : World) : Option (BufferManager × World) :=
  let names := bm.mNames.assign name i
  let vol := elementCount bm.mEngine bm.mBatchSize context name
  let type := bm.mEngine.getTensorDataType name
  let manBuf := ManagedBuffer.fresh
  match GenericBuffer.construct aDev vol type w.dev with
  | none => none
  | some (tmpD, hd) =>
    let rD := GenericBuffer.moveAssign manBuf.deviceBuffer tmpD hd
    let hd2 := rD.2.1.destroy rD.2.2
    match GenericBuffer.construct aHost vol type w.host with
    | none => none
    | some (tmpH, hh) =>
      let rH := GenericBuffer.moveAssign manBuf.hostBuffer tmpH hh
      let hh2 := rH.2.1.destroy rH.2.2
      let manBuf1 : ManagedBuffer := { deviceBuffer := rD.1, hostBuffer := rH.1 }
      some ({ bm with
                mNames := names
                mDeviceBindings := bm.mDeviceBindings ++ [manBuf1.deviceBuffer.data]
                mManagedBuffers := bm.mManagedBuffers ++ [manBuf1] },
            { dev := hd2, host := hh2 })

/-- The constructor's loop over the tensors `i, i + 1, ...` named `names`. -/
def addTensors (aDev aHost : AllocFunc) (context : ContextShapes) :
    List String → Nat → BufferManager → World → Option (BufferManager × World)
  | [], _, bm, w => some (bm, w)
  | name :: rest, i, bm, w =>
    match addTensor aDev aHost context i name bm w with
    | none => none
    | some (bm1, w1) => addTensors aDev aHost context rest (i + 1) bm1 w1

/-- The constructor `BufferManager(engine, batchSize, context)`. -/
def construct (aDev aHost : AllocFunc) (engine : ICudaEngine) (batchSize : Int)
    (context : ContextShapes) (w : World) : Option (BufferManager × World) :=
  addTensors aDev aHost context engine.ioTensorNames 0
    { mEngine := engine, mBatchSize := batchSize, mManagedBuffers := [],
      mDeviceBindings := [], mNames := [] } w

/-- The member `getDeviceBindings()`. -/
def getDeviceBindings (bm : BufferManager) : List Ptr := bm.mDeviceBindings

/-- The element `mManagedBuffers[i]`; the index is in range for every entry of
`mNames` of a constructed manager. -/
def managed (bm : BufferManager) (i : Nat) : ManagedBuffer :=
  bm.mManagedBuffers.getD i ManagedBuffer.fresh

/-- The private member `getBuffer(isHost, tensorName)`. -/
def getBuffer (bm : BufferManager) (isHost : Bool) (tensorName : String) : Ptr :=
  match bm.mNames.find tensorName with
  | none => nullptr
  | some idx => if isHost then (bm.managed idx).hostBuffer.data
                else (bm.managed idx).deviceBuffer.data

/-- The member `getDeviceBuffer(tensorName)`. -/
def getDeviceBuffer (bm : BufferManager) (tensorName : String) : Ptr :=
  bm.getBuffer false tensorName

/-- The member `getHostBuffer(tensorName)`. -/
def getHostBuffer (bm : BufferManager) (tensorName : String) : Ptr :=
  bm.getBuffer true tensorName

/-- The member `size(tensorName)`. -/
def size (bm : BufferManager) (tensorName : String) : Nat :=
  match bm.mNames.find tensorName with
  | none => kINVALID_SIZE_VALUE
  | some idx => (bm.managed idx).hostBuffer.nbBytes

/-- The private member `tenosrIsInput(tensorName)`. -/
def tenosrIsInput (bm : BufferManager) (tensorName : String) : Bool :=
  bm.mEngine.getTensorIOMode tensorName == TensorIOMode.kINPUT

end BufferManager

/-! ## Buffer contents and the copies between host and device -/

/-- The bytes held by the two allocations of one managed pair. -/
structure PairBytes where
  device : List UInt8
  host : List UInt8
  deriving DecidableEq, Repr

/-- The contents of the buffers of a manager: each buffer is an explicit byte
array, found by the index of its pair in `mManagedBuffers`. -/
abbrev Memory := Nat → PairBytes

/-- The transfer primitives of the accelerator runtime: the status that
`cudaMemcpy` and `cudaMemcpyAsync` return for the copy of pair `k` in the given
direction and of the given length; 0 is `cudaSuccess`. -/
structure CudaRuntime where
  cudaMemcpy : Nat → Bool → Nat → Int
  cudaMemcpyAsync : Nat → Bool → Nat → Int

/-- A successful copy of `byteSize` bytes from the start of `src` to the start of
`dst`. -/
def memcpyBytes (dst src : List UInt8) (byteSize : Nat) : List UInt8 :=
  src.take byteSize ++ dst.drop byteSize

/-- The effect of one successful transfer on the pair `pb`: device to host or
host to device. -/
def PairBytes.transfer (pb : PairBytes) (deviceToHost : Bool) (byteSize : Nat) : PairBytes :=
  if deviceToHost then { pb with host := memcpyBytes pb.host pb.device byteSize }
  else { pb with device := memcpyBytes pb.device pb.host byteSize }

namespace BufferManager

/-- The condition of `memcpyBuffers` under which the entry named `name` is copied:
`(copyInput && tenosrIsInput(name)) || (!copyInput && !tenosrIsInput(name))`. -/
def copies (bm : BufferManager) (copyInput : Bool) (name : String) : Bool :=
  (copyInput && bm.tenosrIsInput name) || (!copyInput && !bm.tenosrIsInput name)

/-- The body of the loop of `memcpyBuffers` for the entry `n` of `mNames`; `none`
is the `exit(EXIT_FAILURE)` of `CHECK`. -/
def memcpyEntry (bm : BufferManager) (cuda : CudaRuntime) (copyInput deviceToHost async : Bool)
    (mem : Memory) (n : String × Nat) : Option Memory :=
  let byteSize := (bm.managed n.2).hostBuffer.nbBytes
  if bm.copies copyInput n.1 then
    let ret :=
      if async then cuda.cudaMemcpyAsync n.2 deviceToHost byteSize
      else cuda.cudaMemcpy n.2 deviceToHost byteSize
    if ret ≠ 0 then none
    else some (Function.update mem n.2 ((mem n.2).transfer deviceToHost byteSize))
  else
    some mem

/-- The loop of `memcpyBuffers` over the entries of `mNames` in the order `order`
(the iteration order of an `unordered_map` is not specified). -/
def memcpyOver (bm : BufferManager) (cuda : CudaRuntime) (copyInput deviceToHost async : Bool) :
    List (String × Nat) → Memory → Option Memory
  | [], mem => some mem
  | n :: rest, mem =>
    match bm.memcpyEntry cuda copyInput deviceToHost async mem n with
    | none => none
    | some mem1 => memcpyOver bm cuda copyInput deviceToHost async rest mem1

/-- The private member `memcpyBuffers(copyInput, deviceToHost, async)`, iterating
`mNames` in the order `order`: the manager and the contents afterwards. -/
def memcpyBuffers (bm : BufferManager) (cuda : CudaRuntime) (order : List (String × Nat))
    (copyInput deviceToHost async : Bool) (mem : Memory) : Option (BufferManager × Memory) :=
  match bm.memcpyOver cuda copyInput deviceToHost async order mem with
  | none => none
  | some mem1 => some (bm, mem1)

/-- The member `copyInputToDevice()`. -/
def copyInputToDevice (bm : BufferManager) (cuda : CudaRuntime) (order : List (String × Nat))
    (mem : Memory) : Option (BufferManager × Memory) :=
  bm.memcpyBuffers cuda order true false false mem

/-- The member `copyOutputToHost()`. -/
def copyOutputToHost (bm : BufferManager) (cuda : CudaRuntime) (order : List (String × Nat))
    (mem : Memory) : Option (BufferManager × Memory) :=
  bm.memcpyBuffers cuda order false true false mem

/-- The member `copyInputToDeviceAsync(stream)`. -/
def copyInputToDeviceAsync (bm : BufferManager) (cuda : CudaRuntime)
    (order : List (String × Nat)) (mem : Memory) : Option (BufferManager × Memory) :=
  bm.memcpyBuffers cuda order true false true mem

/-- The member `copyOutputToHostAsync(stream)`. -/
def copyOutputToHostAsync (bm : BufferManager) (cuda : CudaRuntime)
    (order : List (String × Nat)) (mem : Memory) : Option (BufferManager × Memory) :=
  bm.memcpyBuffers cuda order false true true mem

end BufferManager

/-! ## The classification head of the inference pipeline -/

/-- The `float` operations that `verifyOutput` uses, on a carrier `α` ordered by
the comparison of `float`: the constant `0.0F`, `exp`, `+` and `/`. No law is
assumed of them. -/
structure FloatOps (α : Type) where
  zero : α
  exp : α → α
  add : α → α → α
  div : α → α → α

/-- The state of `verifyOutput`: the host output buffer read as an array of
`float`, and the locals `sum`, `val`, `idx`. -/
structure VerifyState (α : Type) where
  output : List α
  sum : α
  val : α
  idx : Nat

namespace Inference

variable {α : Type} [LinearOrder α]

/-- The body of the first loop of `verifyOutput`:
`output[i] = exp(output[i]); sum += output[i];`. -/
def expStep (ops : FloatOps α) (st : VerifyState α) (i : Nat) : VerifyState α :=
  let x := ops.exp (st.output.getD i ops.zero)
  { st with output := st.output.set i x, sum := ops.add st.sum x }

/-- The body of the second loop of `verifyOutput`:
`output[i] /= sum; val = std::max(val, output[i]); if (val == output[i]) idx = i;`. -/
def maxStep (ops : FloatOps α) (st : VerifyState α) (i : Nat) : VerifyState α :=
  let x := ops.div (st.output.getD i ops.zero) st.sum
  let val := max st.val x
  { st with output := st.output.set i x, val := val, idx := if val = x then i else st.idx }

/-- The two loops of `verifyOutput` over `i = 0, ..., outputSize - 1`, from
`val = 0.0F`, `idx = 0`, `sum = 0.0F`: the final state. -/
def verifyOutputRun (ops : FloatOps α) (outputSize : Int) (output : List α) : VerifyState α :=
  let st0 : VerifyState α := { output := output, sum := ops.zero, val := ops.zero, idx := 0 }
  let st1 := (List.range outputSize.toNat).foldl (expStep ops) st0
  (List.range outputSize.toNat).foldl (maxStep ops) st1

/-- The member `Inference::verifyOutput`: the returned `idx`. -/
def verifyOutput (ops : FloatOps α) (outputSize : Int) (output : List α) : Nat :=
  (verifyOutputRun ops outputSize output).idx

end Inference

/-- The sum of the exponentials as the first loop accumulates it, left to right
from `0.0F`. -/
def expSum {α : Type} (ops : FloatOps α) (logits : List α) : α :=
  (logits.map ops.exp).foldl ops.add ops.zero

/-- The normalized (softmax) values: each exponential divided by the sum. -/
def normalized {α : Type} (ops : FloatOps α) (logits : List α) : List α :=
  logits.map (fun x => ops.div (ops.exp x) (expSum ops logits))

/-- Exact rational stand-ins for the `float` operations, with the positive
function `1 + x + x^2` in the place of `exp`; used to run the model. -/
def ratOps : FloatOps ℚ :=
  { zero := 0, exp := fun x => 1 + x + x * x, add := fun a b => a + b, div := fun a b => a / b }

/-! ## The inference pipeline -/

/-- The fields of `ModelParams` that `Infer` and `Build` read. -/
structure ModelParams where
  inputTensorNames : List String
  outputTensorNames : List String
  dataDirs : List String := []
  onnxFileName : String := ""
  int8 : Bool := false
  fp16 : Bool := false
  bf16 : Bool := false

/-- The data members of a built `Inference` object. -/
structure Inference where
  mEngine : ICudaEngine
  mInputDims : Dims
  mOutputDims : Dims
  mParams : ModelParams

/-- How a call ends: it returns a value, the process ends by `exit(EXIT_FAILURE)`
(the macros `ASSERT` and `CHECK`), or a `std::bad_alloc` leaves the call. -/
inductive Outcome
  | returned (value : Int)
  | exited
  | threw
  deriving DecidableEq, Repr

/-- The external collaborators of one call of `Infer`: the two allocation
strategies and their call logs, the transfer primitives with the iteration order
of the name map and the buffer contents, whether
`mEngine->createExecutionContext()` gives a non-null context, and the forward
pass `executeV2` (`none`: it reports failure; `some logits`: it succeeds and
`logits` is what the host output buffer holds after `copyOutputToHost`). -/
structure InferEnv (α : Type) where
  aDev : AllocFunc
  aHost : AllocFunc
  world : World
  cuda : CudaRuntime
  order : List (String × Nat)
  mem : Memory
  ops : FloatOps α
  createExecutionContext : Bool
  executeV2 : List UInt8 → Option (List α)

namespace Inference

/-- The member `Inference::Infer`. A `return false` of this `int` function is the
value 0. `processInput` always returns `true`, so the `return false` after it is
never taken. -/
def Infer {α : Type} [LinearOrder α] (p : Inference) (env : InferEnv α)
    (inputData : List UInt8) : Outcome :=
  match BufferManager.construct env.aDev env.aHost p.mEngine 0 none env.world with
  | none => Outcome.threw
  | some (buffers, _) =>
    if !env.createExecutionContext then Outcome.returned 0
    else if p.mParams.inputTensorNames.length ≠ 1 then Outcome.exited
    else
      match buffers.copyInputToDevice env.cuda env.order env.mem with
      | none => Outcome.exited
      | some (buffers1, mem1) =>
        match env.executeV2 inputData with
        | none => Outcome.returned 0
        | some logits =>
          match buffers1.copyOutputToHost env.cuda env.order mem1 with
          | none => Outcome.exited
          | some _ =>
            Outcome.returned (verifyOutput env.ops (p.mOutputDims.getD 1 0) logits)

end Inference

/-! ## Reachable states of a GenericBuffer -/

/-- The number of bytes of the allocation that a buffer holds after the calls
`events` of its allocation strategy, when it held `prev` bytes before: a
successful `allocFn` gives the bytes requested, a `freeFn` gives none. -/
def heldBytes (prev : Nat) : List MemEvent → Nat
  | [] => prev
  | MemEvent.alloc bytes (some _) :: rest => heldBytes bytes rest
  | MemEvent.alloc _ none :: rest => heldBytes prev rest
  | MemEvent.free _ :: rest => heldBytes 0 rest

/-- The states `(buffer, bytes of its current allocation)` reachable from default
construction or `GenericBuffer(size, type)` by successful `resize` calls, move
construction and move assignment (both the destination and the moved-from
source). Sizes are `size_t` values. The bytes held are read off the calls that
the operation makes; a move hands the allocation of the source to the
destination. -/
inductive Reachable (a : AllocFunc) : GenericBuffer → Nat → Prop
  | empty (t : DataType) : Reachable a (GenericBuffer.empty t) 0
  | construct (n : Nat) (t : DataType) (h h' : Heap) (b : GenericBuffer) :
      n < 2 ^ 64 → GenericBuffer.construct a n t h = some (b, h') →
      Reachable a b (heldBytes 0 (h'.drop h.length))
  | resize (b b' : GenericBuffer) (k n : Nat) (h h' : Heap) :
      Reachable a b k → n < 2 ^ 64 → b.resize a n h = some (b', h') →
      Reachable a b' (heldBytes k (h'.drop h.length))
  | moveConstructDst (b : GenericBuffer) (k : Nat) :
      Reachable a b k → Reachable a (GenericBuffer.moveConstruct b).1 k
  | moveConstructSrc (b : GenericBuffer) (k : Nat) :
      Reachable a b k → Reachable a (GenericBuffer.moveConstruct b).2 0
  | moveAssignDst (self buf : GenericBuffer) (k1 k2 : Nat) (h : Heap) :
      Reachable a self k1 → Reachable a buf k2 →
      Reachable a (GenericBuffer.moveAssign self buf h).1 k2
  | moveAssignSrc (self buf : GenericBuffer) (k1 k2 : Nat) (h : Heap) :
      Reachable a self k1 → Reachable a buf k2 →
      Reachable a (GenericBuffer.moveAssign self buf h).2.1 0

/-! ## Locating a file -/

/-- The constant `MAX_DEPTH` of `locateFile`. -/
def MAX_DEPTH : Nat := 10

/-- The first statement of the outer loop of `locateFile`: the candidate path of
`dir`, with a `/` put in when `dir` is not empty and does not end in one. -/
def joinPath (dir filepathSuffix : String) : String :=
  if !dir.isEmpty && dir.back != '/' then dir ++ "/" ++ filepathSuffix
  else dir ++ filepathSuffix

/-- The inner loop of `locateFile`, `for (i = 0; i < MAX_DEPTH && !found; i++)`,
with `remaining = MAX_DEPTH - i` iterations to go: `found` and `filepath`
afterwards. `fileExists path` is whether `std::ifstream(path)` opens. -/
def probeLoop (fileExists : String → Bool) : Nat → String → Bool × String
  | 0, filepath => (false, filepath)
  | remaining + 1, filepath =>
    if fileExists filepath then (true, filepath)
    else probeLoop fileExists remaining ("../" ++ filepath)

/-- The outer loop of `locateFile` over the directories: `found` and `filepath`
afterwards (`filepath` is cleared after a directory that gave nothing). -/
def searchLoop (fileExists : String → Bool) (filepathSuffix : String) :
    List String → Bool × String
  | [] => (false, "")
  | dir :: rest =>
    if (probeLoop fileExists MAX_DEPTH (joinPath dir filepathSuffix)).1 then
      probeLoop fileExists MAX_DEPTH (joinPath dir filepathSuffix)
    else searchLoop fileExists filepathSuffix rest

/-- The function `locateFile` of `mnist.cpp`; `none` is `exit(EXIT_FAILURE)`. For
an empty list of directories the failure branch of the source evaluates
`directories.front()`, which has no defined behaviour. -/
def locateFile (fileExists : String → Bool) (filepathSuffix : String)
    (directories : List String) (reportError : Bool) : Option String :=
  let filepath := (searchLoop fileExists filepathSuffix directories).2
  if filepath.isEmpty then
    if reportError then none else some filepath
  else some filepath

/-- The path `p` seen from `k` directory levels up, in the words of the
specification: `k` copies of `../` in front of `p`. -/
def ancestorPath (k : Nat) (p : String) : String :=
  String.join (List.replicate k "../") ++ p

/-! ## Building the engine -/

/-- The external stages of `Inference::Build`, in the order of the source: each
field is what the stage gives when it is run (`false` and `none` are a null
result or a reported failure). `fileExists` is whether a stream on a path
opens, for `locateFile`; `inputDims` and `outputDims` are the dimensions of the
network's first input and output. -/
structure BuildEnv where
  createInferBuilder : Bool
  createNetworkV2 : Bool
  createBuilderConfig : Bool
  createParser : Bool
  fileExists : String → Bool
  parseFromFile : String → Bool
  buildSerializedNetwork : Bool
  createInferRuntime : Bool
  deserializeCudaEngine : Option ICudaEngine
  inputDims : Dims
  outputDims : Dims

/-- The stages of `Build` that may fail. -/
inductive BuildStage
  | builder | network | config | parser | parse | serialize | runtime | deserialize
  deriving DecidableEq, Repr

/-- The data members of an `Inference` object that `Build` assigns; `mRuntime` is
whether the runtime pointer is non-null, `mEngine = none` is a null engine. -/
structure PipelineState where
  mRuntime : Bool
  mEngine : Option ICudaEngine
  mInputDims : Dims
  mOutputDims : Dims
  mParams : ModelParams

/-- The state after the constructor `Inference()`: nothing built. -/
def PipelineState.unbuilt : PipelineState :=
  { mRuntime := false, mEngine := none, mInputDims := [], mOutputDims := [],
    mParams := { inputTensorNames := [], outputTensorNames := [] } }

/-- What a call of `Build` leaves: the value returned (`none`: the process ended
in `locateFile`), the stages that were run, in order, and the data members. -/
structure BuildResult where
  outcome : Option Bool
  ran : List BuildStage
  state : PipelineState

open BuildStage in
/-- The member `Inference::Build`. The precision flags only call `setFlag` on the
configuration and have no failing path. -/
def Inference.Build (env : BuildEnv) (st : PipelineState) (params : ModelParams) :
    BuildResult :=
  let st0 : PipelineState := { st with mParams := params }
  if !env.createInferBuilder then
    { outcome := some false, ran := [builder], state := st0 }
  else if !env.createNetworkV2 then
    { outcome := some false, ran := [builder, network], state := st0 }
  else if !env.createBuilderConfig then
    { outcome := some false, ran := [builder, network, config], state := st0 }
  else if !env.createParser then
    { outcome := some false, ran := [builder, network, config, parser], state := st0 }
  else
    match locateFile env.fileExists st0.mParams.onnxFileName st0.mParams.dataDirs true with
    | none => { outcome := none, ran := [builder, network, config, parser], state := st0 }
    | some path =>
      if !env.parseFromFile path then
        { outcome := some false, ran := [builder, network, config, parser, parse],
          state := st0 }
      else if !env.buildSerializedNetwork then
        { outcome := some false, ran := [builder, network, config, parser, parse, serialize],
          state := st0 }
      else
        let st1 : PipelineState := { st0 with mRuntime := env.createInferRuntime }
        if !env.createInferRuntime then
          { outcome := some false,
            ran := [builder, network, config, parser, parse, serialize, runtime],
            state := st1 }
        else
          let st2 : PipelineState := { st1 with mEngine := env.deserializeCudaEngine }
          match env.deserializeCudaEngine with
          | none =>
            { outcome := some false,
              ran := [builder, network, config, parser, parse, serialize, runtime, deserialize],
              state := st2 }
          | some _ =>
            { outcome := some true,
              ran := [builder, network, config, parser, parse, serialize, runtime, deserialize],
              state := { st2 with mInputDims := env.inputDims, mOutputDims := env.outputDims } }

/-! ## The upload handler -/

/-- The whitespace of stream extraction (`std::isspace` in the C locale): space,
tab, line feed, vertical tab, form feed, carriage return. -/
def isSpace (c : UInt8) : Bool := c == 32 || (9 ≤ c && c ≤ 13)

/-- A decimal digit. -/
def isDigit (c : UInt8) : Bool := 48 ≤ c && c ≤ 57

/-- The extraction `stream >> token` of a `std::string`: leading whitespace is
skipped and the bytes up to the next whitespace or the end are taken; the token
and the rest of the stream. An empty token is a failed extraction, which happens
only at the end of the stream. -/
def readToken (s : List UInt8) : List UInt8 × List UInt8 :=
  let s1 := s.dropWhile isSpace
  (s1.takeWhile (fun c => !isSpace c), s1.dropWhile (fun c => !isSpace c))

/-- The function `std::stoi` on a token: an optional sign and the decimal digits
that follow; `none` is the exception thrown when there is no digit
(`std::invalid_argument`) or when the value is no `int` (`std::out_of_range`). -/
def stoi (s : List UInt8) : Option Int :=
  let neg := s.head? == some 45
  let body := if s.head? == some 45 || s.head? == some 43 then s.drop 1 else s
  let digits := body.takeWhile isDigit
  if digits.isEmpty then none
  else
    let v : Int := digits.foldl (fun acc d => acc * 10 + ((d.toNat : Int) - 48)) 0
    let r : Int := if neg then -v else v
    if -(2 ^ 31) ≤ r ∧ r < 2 ^ 31 then some r else none

/-- The function `parsePGMData` of `server.cpp`: four tokens `magic`, `w`, `h`,
`max`, one byte skipped, and a vector of `stoi(w) * stoi(h)` zero bytes into
which the bytes that follow are read, as many as there are. `none`: an
exception leaves the function (`stoi` throws, or the vector cannot be created
for a negative size); a product that is no `int` has no defined behaviour and
gives `none` as well. -/
def parsePGMData (pgm : List UInt8) : Option (List UInt8) :=
  let t1 := readToken pgm
  let t2 := readToken t1.2
  let t3 := readToken t2.2
  let t4 := readToken t3.2
  let payload := t4.2.drop 1
  match stoi t2.1, stoi t3.1 with
  | some w, some h =>
    if 0 ≤ w * h ∧ w * h < 2 ^ 31 then
      some ((payload.take (w * h).toNat) ++
        List.replicate ((w * h).toNat - (payload.take (w * h).toNat).length) 0)
    else none
  | _, _ => none

/-- How the handling of an uploaded file ends: an exception leaves
`parsePGMData`, or `memcpy` in `MnistApi::infer` reads `wanted` bytes from a
buffer of `available < wanted` bytes (no defined behaviour), or `Infer` is run. -/
inductive UploadOutcome
  | threw
  | readPastEnd (wanted available : Nat)
  | inferred (o : Outcome)
  deriving DecidableEq, Repr

/-- The member `MnistApi::infer(data)`, for a pointer `data` to a buffer that
holds the bytes `data`: a vector of `inputH * inputW` bytes is filled by
`memcpy` from `data` and given to `Infer`. -/
def MnistApi.infer {α : Type} [LinearOrder α] (p : Inference) (env : InferEnv α)
    (data : List UInt8) : UploadOutcome :=
  let inputH := p.mInputDims.getD 2 0
  let inputW := p.mInputDims.getD 3 0
  let n := (inputH * inputW).toNat
  if n ≤ data.length then UploadOutcome.inferred (p.Infer env (data.take n))
  else UploadOutcome.readPastEnd n data.length

/-- The two statements of `handleUpload` for the part named `file` with the body
`body`: `parsePGMData(body)` and `mnistApi.infer(data->data())`. -/
def handleUpload {α : Type} [LinearOrder α] (p : Inference) (env : InferEnv α)
    (body : List UInt8) : UploadOutcome :=
  match parsePGMData body with
  | none => UploadOutcome.threw
  | some data => MnistApi.infer p env data

/-! ## The claimed element count, in the words of the specification -/

/-- Rounding-up division of the specification: the least integer that is at least
the quotient `x / n` of rationals. -/
def specCeilDiv (x n : Int) : Int := Int.ceil ((x : ℚ) / (n : ℚ))

/-- The least multiple of `n` that is at least `x`, in the words of the
specification: `n` times the rounded-up quotient. -/
def specRoundUp (x n : Int) : Int := n * specCeilDiv x n

/-- The volume `V` of the specification: the product of the extents, or, for a
tensor vectorized along `vecDim` with `scalarsPerVec` components, `scalarsPerVec`
times the product of the extents with the extent at `vecDim` replaced by its
rounded-up quotient by `scalarsPerVec`. -/
def specVolume (dims : Dims) (vecDim scalarsPerVec : Int) : Int :=
  if vecDim = -1 then dims.prod
  else scalarsPerVec *
    (dims.set vecDim.toNat (specCeilDiv (dims.getD vecDim.toNat 0) scalarsPerVec)).prod

/-- The batch factor `B` of the specification: `batchSize` when no execution
context was supplied and `batchSize` is not 0, and 1 otherwise. -/
def specBatch (batchSize : Int) (context : ContextShapes) : Int :=
  if context.isNone = true ∧ batchSize ≠ 0 then batchSize else 1

/-! ## Invariants of a constructed BufferManager -/

/-- The pair `mb` has the element count and the element type that the constructor
computes for the tensor `name`, in both of its buffers. -/
def SizedFor (e : ICudaEngine) (batchSize : Int) (context : ContextShapes)
    (name : String) (mb : ManagedBuffer) : Prop :=
  mb.deviceBuffer.mSize = BufferManager.elementCount e batchSize context name ∧
  mb.deviceBuffer.mCapacity = BufferManager.elementCount e batchSize context name ∧
  mb.deviceBuffer.mType = e.getTensorDataType name ∧
  mb.hostBuffer.mSize = BufferManager.elementCount e batchSize context name ∧
  mb.hostBuffer.mCapacity = BufferManager.elementCount e batchSize context name ∧
  mb.hostBuffer.mType = e.getTensorDataType name

/-- The map `m` registers exactly the names `processed`, each with the index of
one of its occurrences. -/
def NamesInv (processed : List String) (m : NameMap) : Prop :=
  ∀ s : String,
    (s ∉ processed → m.find s = none) ∧
    (s ∈ processed → ∃ i : Nat, processed[i]? = some s ∧ m.find s = some i)

/-- What holds of the manager after the constructor's loop has handled the
tensors `processed`. -/
structure ConstructInv (e : ICudaEngine) (batchSize : Int) (context : ContextShapes)
    (processed : List String) (bm : BufferManager) : Prop where
  engine_eq : bm.mEngine = e
  batch_eq : bm.mBatchSize = batchSize
  sized : List.Forall₂ (SizedFor e batchSize context) processed bm.mManagedBuffers
  bindings : bm.mDeviceBindings = bm.mManagedBuffers.map (fun mb => mb.deviceBuffer.data)
  names : NamesInv processed bm.mNames
  entries : processed.Nodup → bm.mNames = processed.zip (List.range processed.length)

/-! ## Concrete data used by the worked examples -/

/-- An allocation strategy that always succeeds: the k-th call of the log
returns the address `4096 * (k + 1)`. -/
def bumpAlloc : AllocFunc := fun h _ => some (4096 * (h.length + 1))

/-- A float buffer of four elements at address `4096`. -/
def floatBuf4 : GenericBuffer :=
  { mSize := 4, mCapacity := 4, mType := DataType.kFLOAT, mBuffer := 4096 }

/-- The engine of the MNIST model: the float tensors `Input3` of shape
`[1, 1, 28, 28]` and `Plus214_Output_0` of shape `[1, 10]`, not vectorized. -/
def mnistEngine : ICudaEngine :=
  { ioTensorNames := ["Input3", "Plus214_Output_0"]
    getTensorShape := fun name => if name = "Input3" then [1, 1, 28, 28] else [1, 10]
    getTensorDataType := fun _ => DataType.kFLOAT
    getTensorVectorizedDim := fun _ => -1
    getTensorComponentsPerElement := fun _ => -1
    getTensorIOMode := fun name =>
      if name = "Input3" then TensorIOMode.kINPUT else TensorIOMode.kOUTPUT }

/-- An engine with one half-precision tensor `x` of shape `[1, 3, 4, 4]`,
vectorized along dimension 1 with 4 components per element. -/
def packedEngine : ICudaEngine :=
  { ioTensorNames := ["x"]
    getTensorShape := fun _ => [1, 3, 4, 4]
    getTensorDataType := fun _ => DataType.kHALF
    getTensorVectorizedDim := fun _ => 1
    getTensorComponentsPerElement := fun _ => 4
    getTensorIOMode := fun _ => TensorIOMode.kINPUT }

/-- Both call logs empty. -/
def World.init : World := { dev := [], host := [] }

/-- The manager that the constructor builds for `mnistEngine` with `bumpAlloc` on
both sides. -/
def mnistManager : BufferManager :=
  { mEngine := mnistEngine
    mBatchSize := 0
    mManagedBuffers :=
      [{ deviceBuffer := { mSize := 784, mCapacity := 784, mType := DataType.kFLOAT, mBuffer := 4096 },
         hostBuffer := { mSize := 784, mCapacity := 784, mType := DataType.kFLOAT, mBuffer := 4096 } },
       { deviceBuffer := { mSize := 10, mCapacity := 10, mType := DataType.kFLOAT, mBuffer := 16384 },
         hostBuffer := { mSize := 10, mCapacity := 10, mType := DataType.kFLOAT, mBuffer := 16384 } }]
    mDeviceBindings := [4096, 16384]
    mNames := [("Input3", 0), ("Plus214_Output_0", 1)] }

/-- The call logs after that construction. -/
def mnistWorld : World :=
  { dev := [MemEvent.alloc 3136 (some 4096), MemEvent.free 0, MemEvent.free 0,
            MemEvent.alloc 40 (some 16384), MemEvent.free 0, MemEvent.free 0]
    host := [MemEvent.alloc 3136 (some 4096), MemEvent.free 0, MemEvent.free 0,
             MemEvent.alloc 40 (some 16384), MemEvent.free 0, MemEvent.free 0] }

/-- A runtime whose transfers all report `cudaSuccess`. -/
def okCuda : CudaRuntime :=
  { cudaMemcpy := fun _ _ _ => 0, cudaMemcpyAsync := fun _ _ _ => 0 }

/-- Buffer contents for the MNIST manager: host bytes all 1 and device bytes all
0, of the allocated lengths 3136 and 40. -/
def mnistMemory : Memory := fun i =>
  if i = 0 then { device := List.replicate 3136 0, host := List.replicate 3136 1 }
  else { device := List.replicate 40 0, host := List.replicate 40 1 }

/-- A built MNIST pipeline: one input name, one output name, ten classes. -/
def mnistPipeline : Inference :=
  { mEngine := mnistEngine
    mInputDims := [1, 1, 28, 28]
    mOutputDims := [1, 10]
    mParams := { inputTensorNames := ["Input3"], outputTensorNames := ["Plus214_Output_0"] } }

/-- Collaborators that all succeed; the forward pass yields logits whose largest
entry is that of class 0. -/
def okEnv : InferEnv ℚ :=
  { aDev := bumpAlloc, aHost := bumpAlloc, world := World.init, cuda := okCuda,
    order := [("Input3", 0), ("Plus214_Output_0", 1)], mem := mnistMemory, ops := ratOps,
    createExecutionContext := true,
    executeV2 := fun _ => some [3, 0, 0, 0, 0, 0, 0, 0, 0, 0] }

/-- The same collaborators, except that no execution context can be created. -/
def noContextEnv : InferEnv ℚ := { okEnv with createExecutionContext := false }

/-- The same collaborators, except that the forward pass reports failure. -/
def failedPassEnv : InferEnv ℚ := { okEnv with executeV2 := fun _ => none }

/-- A buffer of `2 ^ 61 + 1` elements of type INT64 after `resize(2)`: the
constructor requested `(2 ^ 61 + 1) * 8 mod 2 ^ 64 = 8` bytes. -/
def wrappedBuf : GenericBuffer :=
  { mSize := 2, mCapacity := 2 ^ 61 + 1, mType := DataType.kINT64, mBuffer := 4096 }

/-- A `malloc` that never returns null, not even for a request of 0 bytes: the
k-th call of the log returns the address `4096 * (k + 1)`. -/
def bumpMalloc : Heap → Nat → Ptr := fun h _ => 4096 * (h.length + 1)

/-- The host buffer that `GenericBuffer(0, kFLOAT)` builds with `bumpMalloc`: no
element, no byte, and the pointer that the request of 0 bytes returned. -/
def zeroBuf : GenericBuffer :=
  { mSize := 0, mCapacity := 0, mType := DataType.kFLOAT, mBuffer := 4096 }

/-- A buffer of three 64-bit integers at address `8192`. -/
def int64Buf3 : GenericBuffer :=
  { mSize := 3, mCapacity := 3, mType := DataType.kINT64, mBuffer := 8192 }

/-- Parameters of the MNIST model, as `initializeModelParams` sets them. -/
def mnistParams : ModelParams :=
  { inputTensorNames := ["Input3"], outputTensorNames := ["Plus214_Output_0"],
    dataDirs := ["data/mnist/", "data/samples/mnist/"], onnxFileName := "mnist.onnx" }

/-- Build stages that all succeed, with the model file at `data/mnist/mnist.onnx`. -/
def okBuildEnv : BuildEnv :=
  { createInferBuilder := true, createNetworkV2 := true, createBuilderConfig := true,
    createParser := true, fileExists := fun p => p == "data/mnist/mnist.onnx",
    parseFromFile := fun _ => true, buildSerializedNetwork := true,
    createInferRuntime := true, deserializeCudaEngine := some mnistEngine,
    inputDims := [1, 1, 28, 28], outputDims := [1, 10] }

/-- The same stages, except that the serialization of the network fails. -/
def noPlanBuildEnv : BuildEnv := { okBuildEnv with buildSerializedNetwork := false }

/-- The binary PGM file of one pixel: the bytes of `P5 1 1 255`, a line feed and
one pixel byte 0. -/
def onePixelPgm : List UInt8 := [80, 53, 32, 49, 32, 49, 32, 50, 53, 53, 10, 0]

/-- A binary PGM file of 28 by 28 pixels, all 0: the bytes of `P5 28 28 255`, a
line feed and 784 pixel bytes. -/
def mnistPgm : List UInt8 :=
  [80, 53, 32, 50, 56, 32, 50, 56, 32, 50, 53, 53, 10] ++ List.replicate 784 0

/-! ## Theorems -/

/-! ### GenericBuffer: resize and byte size -/

/-- C1. `resize(n)`: when `n` is at most the capacity no call of the allocation
strategy is made and pointer, capacity and type are kept; when `n` exceeds the
capacity the old pointer is freed, then `n * getElementSize(t)` bytes (the
`size_t` product) are requested, and on success the capacity is exactly `n`
and the pointer is the one returned (on failure `std::bad_alloc` is thrown).
Whenever `resize` returns, the element count is `n` and `nbBytes()` is the
`size_t` product `n * getElementSize(t)`, the exact product when that fits
`size_t`. -/
theorem resize_contract (a : AllocFunc) (b : GenericBuffer) (n : Nat) (h : Heap) :
    (n ≤ b.mCapacity → b.resize a n h = some ({ b with mSize := n }, h)) ∧
    (b.mCapacity < n → ∀ p : Ptr,
      a (h ++ [MemEvent.free b.mBuffer]) (n * getElementSize b.mType % 2 ^ 64) = some p →
      b.resize a n h =
        some ({ mSize := n, mCapacity := n, mType := b.mType, mBuffer := p },
          h ++ [MemEvent.free b.mBuffer,
                MemEvent.alloc (n * getElementSize b.mType % 2 ^ 64) (some p)])) ∧
    (b.mCapacity < n →
      a (h ++ [MemEvent.free b.mBuffer]) (n * getElementSize b.mType % 2 ^ 64) = none →
      b.resize a n h = none) ∧
    (∀ (b' : GenericBuffer) (h' : Heap), b.resize a n h = some (b', h') →
      b'.size = n ∧ b'.mType = b.mType ∧
      b'.nbBytes = n * getElementSize b.mType % 2 ^ 64 ∧
      (n * getElementSize b.mType < 2 ^ 64 → b'.nbBytes = n * getElementSize b.mType)) := by
  refine ⟨?_, ?_, ?_, ?_⟩
  · intro hle
    simp [GenericBuffer.resize, Nat.not_lt.mpr hle]
  · intro hlt p hp
    simp only [GenericBuffer.resize, hlt, if_true, allocFn, freeFn, GenericBuffer.nbBytes,
      GenericBuffer.size, mulSizeT, SIZE_MOD, hp, List.append_assoc, List.singleton_append]
  · intro hlt hp
    simp only [GenericBuffer.resize, hlt, if_true, allocFn, freeFn, GenericBuffer.nbBytes,
      GenericBuffer.size, mulSizeT, SIZE_MOD, hp]
  · intro b' h' hres
    have key : b'.mSize = n ∧ b'.mType = b.mType := by
      unfold GenericBuffer.resize at hres
      simp only at hres
      split_ifs at hres with hc
      · cases hq : allocFn a (freeFn h b.mBuffer)
            (GenericBuffer.nbBytes { b with mSize := n }) with
        | mk r h2 =>
          rw [hq] at hres
          cases r with
          | none => simp at hres
          | some p =>
            simp only [Option.some.injEq, Prod.mk.injEq] at hres
            obtain ⟨hb, -⟩ := hres
            subst hb
            exact ⟨rfl, rfl⟩
      · simp only [Option.some.injEq, Prod.mk.injEq] at hres
        obtain ⟨hb, -⟩ := hres
        subst hb
        exact ⟨rfl, rfl⟩
    obtain ⟨hs, ht⟩ := key
    have hnb : b'.nbBytes = n * getElementSize b.mType % 2 ^ 64 := by
      simp [GenericBuffer.nbBytes, GenericBuffer.size, mulSizeT, SIZE_MOD, hs, ht]
    refine ⟨hs, ht, hnb, ?_⟩
    intro hfit
    rw [hnb, Nat.mod_eq_of_lt hfit]

/-- Witness of C1 on a four-element float buffer: shrinking to 3 keeps the
allocation, growing to 6 frees address 4096 and requests 24 bytes. -/
theorem resize_contract_witness :
    floatBuf4.resize bumpAlloc 3 [] = some ({ floatBuf4 with mSize := 3 }, []) ∧
    floatBuf4.resize bumpAlloc 6 [] =
      some ({ mSize := 6, mCapacity := 6, mType := DataType.kFLOAT, mBuffer := 8192 },
        [MemEvent.free 4096, MemEvent.alloc 24 (some 8192)]) := by
  have hth := resize_contract bumpAlloc floatBuf4
  refine ⟨(hth 3 []).1 (by decide), ?_⟩
  have h6 := (hth 6 []).2.1 (by decide) 8192 (by decide)
  simpa [floatBuf4, getElementSize, DataType.kFLOAT, DataType.kINT64, DataType.kINT32] using h6

open DataType in
/-- C2. `nbBytes()` is the element count times `getElementSize(type)` modulo
`2 ^ 64`; `getElementSize` is the table 8, 4, 4, 2, 2, 1, 1, 1, 1 on INT64,
INT32, FLOAT, BF16, HALF, BOOL, UINT8, INT8, FP8 and is 0, without failing,
on every other type code, INT4 among them. -/
theorem nbBytes_eq_table (b : GenericBuffer) :
    b.nbBytes = (b.mSize * getElementSize b.mType) % 2 ^ 64 ∧
    getElementSize kINT64 = 8 ∧ getElementSize kINT32 = 4 ∧ getElementSize kFLOAT = 4 ∧
    getElementSize kBF16 = 2 ∧ getElementSize kHALF = 2 ∧ getElementSize kBOOL = 1 ∧
    getElementSize kUINT8 = 1 ∧ getElementSize kINT8 = 1 ∧ getElementSize kFP8 = 1 ∧
    (∀ t : DataType,
      t ∉ [kINT64, kINT32, kFLOAT, kBF16, kHALF, kBOOL, kUINT8, kINT8, kFP8] →
      getElementSize t = 0) ∧
    getElementSize kINT4 = 0 := by
  refine ⟨rfl, by decide, by decide, by decide, by decide, by decide, by decide,
    by decide, by decide, by decide, ?_, by decide⟩
  intro t ht
  simp only [List.mem_cons, List.mem_nil_iff, or_false, not_or] at ht
  obtain ⟨h1, h2, h3, h4, h5, h6, h7, h8, h9⟩ := ht
  simp [getElementSize, h1, h2, h3, h4, h5, h6, h7, h8, h9]

/-! ### Arithmetic of the element count -/

theorem toSizeT_cast (x : Int) : ((toSizeT x : Nat) : Int) = x % (2 ^ 64 : Int) := by
  unfold toSizeT SIZE_MOD
  have h : (0 : Int) ≤ x % ((2 ^ 64 : Nat) : Int) := Int.emod_nonneg _ (by norm_num)
  rw [Int.toNat_of_nonneg h]
  norm_num

theorem toSizeT_of_fits (x : Int) (h0 : 0 ≤ x) (h1 : x < 2 ^ 64) :
    ((toSizeT x : Nat) : Int) = x := by
  rw [toSizeT_cast, Int.emod_eq_of_lt h0 h1]

theorem toSizeT_one : toSizeT 1 = 1 := by decide

theorem mulSizeT_toSizeT (a b : Int) :
    mulSizeT (toSizeT a) (toSizeT b) = toSizeT (a * b) := by
  apply Int.ofNat_inj.mp
  have hm : ((mulSizeT (toSizeT a) (toSizeT b) : Nat) : Int)
      = ((toSizeT a : Nat) : Int) * ((toSizeT b : Nat) : Int) % (2 ^ 64 : Int) := by
    unfold mulSizeT SIZE_MOD
    push_cast
    rfl
  rw [hm, toSizeT_cast, toSizeT_cast, toSizeT_cast, ← Int.mul_emod]

theorem volume_eq_prod (d : Dims) : volume d = d.prod := by
  unfold volume
  rw [List.prod_eq_foldl]

theorem divUp_eq_ediv (x n : Int) (hx : 0 ≤ x) (hn : 1 ≤ n) :
    divUp x n = (x + n - 1) / n := by
  unfold divUp
  exact Int.tdiv_eq_ediv (by omega) (by omega)

theorem divUp_eq_specCeilDiv (x n : Int) (hx : 0 ≤ x) (hn : 1 ≤ n) :
    divUp x n = specCeilDiv x n := by
  rw [divUp_eq_ediv x n hx hn]
  unfold specCeilDiv
  symm
  rw [Int.ceil_eq_iff]
  have hnpos : (0 : Int) < n := by omega
  have hq : (0 : ℚ) < (n : ℚ) := by exact_mod_cast hnpos
  have hdm := Int.emod_add_ediv (x + n - 1) n
  have hr0 := Int.emod_nonneg (x + n - 1) (show n ≠ 0 by omega)
  have hr1 := Int.emod_lt_of_pos (x + n - 1) hnpos
  set q := (x + n - 1) / n with hqdef
  set r := (x + n - 1) % n with hrdef
  have e1 : n * q = x + n - 1 - r := by linarith
  constructor
  · rw [lt_div_iff₀ hq]
    have : (q - 1) * n < x := by nlinarith
    exact_mod_cast this
  · rw [div_le_iff₀ hq]
    have : x ≤ q * n := by nlinarith
    exact_mod_cast this

theorem divUp_mul_of_dvd (x n : Int) (hx : 0 ≤ x) (hn : 1 ≤ n) (hd : n ∣ x) :
    n * divUp x n = x := by
  rw [divUp_eq_ediv x n hx hn]
  obtain ⟨k, rfl⟩ := hd
  have hnpos : (0 : Int) < n := by omega
  have : (n * k + n - 1) / n = k := by
    have h1 : n * k + n - 1 = (n - 1) + n * k := by ring
    rw [h1, Int.add_mul_ediv_left _ _ (by omega : n ≠ 0)]
    rw [Int.ediv_eq_zero_of_lt (by omega) (by omega)]
    simp
  rw [this]

theorem batchFactor_eq (batchSize : Int) (context : ContextShapes) :
    BufferManager.batchFactor batchSize context = toSizeT (specBatch batchSize context) := by
  unfold BufferManager.batchFactor specBatch
  cases context with
  | some c => simp [toSizeT_one]
  | none =>
    by_cases hb : batchSize = 0
    · simp [hb, toSizeT_one]
    · simp [hb]

/-- The element count of the constructor is the claimed `B * V`, reduced to
`size_t`. -/
theorem elementCount_eq_spec (e : ICudaEngine) (batchSize : Int) (context : ContextShapes)
    (name : String)
    (hvec : e.getTensorVectorizedDim name ≠ -1 →
      1 ≤ e.getTensorComponentsPerElement name ∧
      0 ≤ (BufferManager.queriedDims e context name).getD (e.getTensorVectorizedDim name).toNat 0) :
    BufferManager.elementCount e batchSize context name =
      toSizeT (specBatch batchSize context *
        specVolume (BufferManager.queriedDims e context name)
          (e.getTensorVectorizedDim name) (e.getTensorComponentsPerElement name)) := by
  unfold BufferManager.elementCount specVolume
  simp only [batchFactor_eq, volume_eq_prod]
  by_cases hv : e.getTensorVectorizedDim name = -1
  · simp [hv, mulSizeT_toSizeT]
  · obtain ⟨h1, h0⟩ := hvec hv
    have hv2 : ¬ (-1 = e.getTensorVectorizedDim name) := fun h => hv h.symm
    simp only [hv, hv2, ne_eq, not_false_eq_true, if_true, if_false, mulSizeT_toSizeT]
    rw [divUp_eq_specCeilDiv _ _ h0 h1, mul_assoc]

/-! ### The name map -/

theorem NameMap.find_assign (m : NameMap) (k : String) (v : Nat) (s : String) :
    (m.assign k v).find s = if s = k then some v else m.find s := by
  induction m with
  | nil =>
    by_cases hs : s = k
    · simp [NameMap.assign, NameMap.find, hs]
    · have hks : ¬ (k = s) := fun h => hs h.symm
      simp [NameMap.assign, NameMap.find, hs, hks]
  | cons x xs ih =>
    obtain ⟨k0, v0⟩ := x
    by_cases hk : k0 = k
    · subst hk
      by_cases hs : s = k0
      · simp [NameMap.assign, NameMap.find, hs]
      · have hks : ¬ (k0 = s) := fun h => hs h.symm
        simp [NameMap.assign, NameMap.find, hs, hks]
    · by_cases h0 : k0 = s
      · subst h0
        simp [NameMap.assign, NameMap.find, hk]
      · simp only [NameMap.assign, hk, if_false, NameMap.find, h0]
        exact ih

theorem NameMap.assign_new (m : NameMap) (k : String) (v : Nat)
    (hk : ∀ e ∈ m, e.1 ≠ k) : m.assign k v = m ++ [(k, v)] := by
  induction m with
  | nil => rfl
  | cons x xs ih =>
    obtain ⟨k0, v0⟩ := x
    have h0 : k0 ≠ k := hk (k0, v0) (List.mem_cons_self _ _)
    simp only [NameMap.assign, h0, if_false, List.cons_append]
    rw [ih (fun e he => hk e (List.mem_cons_of_mem _ he))]

/-! ### The constructor of BufferManager -/

theorem GenericBuffer.construct_some (a : AllocFunc) (n : Nat) (t : DataType) (h h' : Heap)
    (b : GenericBuffer) (hc : GenericBuffer.construct a n t h = some (b, h')) :
    b.mSize = n ∧ b.mCapacity = n ∧ b.mType = t ∧
    a h (mulSizeT n (getElementSize t)) = some b.mBuffer ∧
    h' = h ++ [MemEvent.alloc (mulSizeT n (getElementSize t)) (some b.mBuffer)] := by
  unfold GenericBuffer.construct at hc
  simp only [allocFn, GenericBuffer.nbBytes, GenericBuffer.size] at hc
  cases hq : a h (mulSizeT n (getElementSize t)) with
  | none => simp [hq] at hc
  | some p =>
    simp only [hq, Option.some.injEq, Prod.mk.injEq] at hc
    obtain ⟨hb, hh⟩ := hc
    subst hb
    exact ⟨rfl, rfl, rfl, rfl, hh.symm⟩

theorem GenericBuffer.construct_isSome (a : AllocFunc) (n : Nat) (t : DataType) (h : Heap)
    (ha : (a h (mulSizeT n (getElementSize t))).isSome = true) :
    (GenericBuffer.construct a n t h).isSome = true := by
  unfold GenericBuffer.construct
  simp only [allocFn, GenericBuffer.nbBytes, GenericBuffer.size]
  cases hq : a h (mulSizeT n (getElementSize t)) with
  | none => simp [hq] at ha
  | some p => simp

theorem BufferManager.addTensor_some (aDev aHost : AllocFunc) (context : ContextShapes)
    (i : Nat) (name : String) (bm bm' : BufferManager) (w w' : World)
    (hs : BufferManager.addTensor aDev aHost context i name bm w = some (bm', w')) :
    ∃ mb : ManagedBuffer,
      SizedFor bm.mEngine bm.mBatchSize context name mb ∧
      bm'.mEngine = bm.mEngine ∧ bm'.mBatchSize = bm.mBatchSize ∧
      bm'.mNames = bm.mNames.assign name i ∧
      bm'.mDeviceBindings = bm.mDeviceBindings ++ [mb.deviceBuffer.data] ∧
      bm'.mManagedBuffers = bm.mManagedBuffers ++ [mb] := by
  unfold BufferManager.addTensor at hs
  simp only at hs
  cases hd : GenericBuffer.construct aDev
      (BufferManager.elementCount bm.mEngine bm.mBatchSize context name)
      (bm.mEngine.getTensorDataType name) w.dev with
  | none => simp [hd] at hs
  | some rd =>
    obtain ⟨tmpD, hdev⟩ := rd
    cases hh : GenericBuffer.construct aHost
        (BufferManager.elementCount bm.mEngine bm.mBatchSize context name)
        (bm.mEngine.getTensorDataType name) w.host with
    | none => simp [hd, hh] at hs
    | some rh =>
      obtain ⟨tmpH, hhost⟩ := rh
      simp only [hd, hh, Option.some.injEq, Prod.mk.injEq] at hs
      obtain ⟨hbm, -⟩ := hs
      obtain ⟨d1, d2, d3, -, -⟩ := GenericBuffer.construct_some _ _ _ _ _ _ hd
      obtain ⟨e1, e2, e3, -, -⟩ := GenericBuffer.construct_some _ _ _ _ _ _ hh
      refine ⟨{ deviceBuffer := (GenericBuffer.moveAssign ManagedBuffer.fresh.deviceBuffer tmpD hdev).1,
                hostBuffer := (GenericBuffer.moveAssign ManagedBuffer.fresh.hostBuffer tmpH hhost).1 },
              ?_, ?_⟩
      · exact ⟨d1, d2, d3, e1, e2, e3⟩
      · subst hbm
        exact ⟨rfl, rfl, rfl, rfl, rfl⟩

theorem BufferManager.addTensor_isSome (aDev aHost : AllocFunc) (context : ContextShapes)
    (i : Nat) (name : String) (bm : BufferManager) (w : World)
    (hDev : ∀ h n, (aDev h n).isSome = true) (hHost : ∀ h n, (aHost h n).isSome = true) :
    (BufferManager.addTensor aDev aHost context i name bm w).isSome = true := by
  unfold BufferManager.addTensor
  simp only
  have h1 := GenericBuffer.construct_isSome aDev
    (BufferManager.elementCount bm.mEngine bm.mBatchSize context name)
    (bm.mEngine.getTensorDataType name) w.dev (hDev _ _)
  have h2 := GenericBuffer.construct_isSome aHost
    (BufferManager.elementCount bm.mEngine bm.mBatchSize context name)
    (bm.mEngine.getTensorDataType name) w.host (hHost _ _)
  obtain ⟨rd, hrd⟩ := Option.isSome_iff_exists.mp h1
  obtain ⟨rh, hrh⟩ := Option.isSome_iff_exists.mp h2
  simp [hrd, hrh]

theorem BufferManager.addTensors_isSome (aDev aHost : AllocFunc) (context : ContextShapes)
    (hDev : ∀ h n, (aDev h n).isSome = true) (hHost : ∀ h n, (aHost h n).isSome = true)
    (names : List String) :
    ∀ (i : Nat) (bm : BufferManager) (w : World),
      (BufferManager.addTensors aDev aHost context names i bm w).isSome = true := by
  induction names with
  | nil => intro i bm w; simp [BufferManager.addTensors]
  | cons name rest ih =>
    intro i bm w
    obtain ⟨r, hr⟩ := Option.isSome_iff_exists.mp
      (BufferManager.addTensor_isSome aDev aHost context i name bm w hDev hHost)
    obtain ⟨bm1, w1⟩ := r
    simp only [BufferManager.addTensors, hr]
    exact ih (i + 1) bm1 w1

theorem namesInv_assign (processed : List String) (m : NameMap) (name : String)
    (hinv : NamesInv processed m) :
    NamesInv (processed ++ [name]) (m.assign name processed.length) := by
  intro s
  rw [NameMap.find_assign]
  by_cases hs : s = name
  · subst hs
    refine ⟨fun hn => absurd (by simp) hn, fun _ => ⟨processed.length, ?_, by simp⟩⟩
    simp
  · simp only [hs, if_false, List.mem_append, List.mem_singleton, or_false]
    refine ⟨fun hn => (hinv s).1 hn, fun hin => ?_⟩
    obtain ⟨i, hi, hf⟩ := (hinv s).2 hin
    refine ⟨i, ?_, hf⟩
    have hlt : i < processed.length := by
      obtain ⟨hlt, -⟩ := List.getElem?_eq_some.mp hi
      exact hlt
    rw [List.getElem?_append_left hlt]
    exact hi

theorem constructInv_addTensor (e : ICudaEngine) (batchSize : Int) (context : ContextShapes)
    (aDev aHost : AllocFunc) (processed : List String) (name : String)
    (bm bm' : BufferManager) (w w' : World)
    (hinv : ConstructInv e batchSize context processed bm)
    (hs : BufferManager.addTensor aDev aHost context processed.length name bm w
      = some (bm', w')) :
    ConstructInv e batchSize context (processed ++ [name]) bm' := by
  obtain ⟨mb, hsz, h1, h2, h3, h4, h5⟩ :=
    BufferManager.addTensor_some aDev aHost context _ name bm bm' w w' hs
  rw [hinv.engine_eq, hinv.batch_eq] at hsz
  refine ⟨h1.trans hinv.engine_eq, h2.trans hinv.batch_eq, ?_, ?_, ?_, ?_⟩
  · rw [h5]
    exact List.rel_append hinv.sized (List.Forall₂.cons hsz List.Forall₂.nil)
  · rw [h4, h5, hinv.bindings]
    simp
  · rw [h3]
    exact namesInv_assign processed bm.mNames name hinv.names
  · intro hnd
    have hnd1 : processed.Nodup := (List.nodup_append.mp hnd).1
    have hnot : name ∉ processed := by
      intro hmem
      have := (List.nodup_append.mp hnd).2.2
      exact this hmem (List.mem_singleton_self name)
    have hm := hinv.entries hnd1
    rw [h3, NameMap.assign_new]
    · rw [hm]
      simp only [List.length_append, List.length_singleton, List.range_succ]
      rw [List.zip_append (by simp)]
      simp
    · intro en hen
      rw [hm] at hen
      intro hname
      apply hnot
      have := (List.of_mem_zip hen).1
      rw [hname] at this
      exact this

theorem constructInv_addTensors (e : ICudaEngine) (batchSize : Int) (context : ContextShapes)
    (aDev aHost : AllocFunc) (rest : List String) :
    ∀ (processed : List String) (bm bm' : BufferManager) (w w' : World),
      ConstructInv e batchSize context processed bm →
      BufferManager.addTensors aDev aHost context rest processed.length bm w = some (bm', w') →
      ConstructInv e batchSize context (processed ++ rest) bm' := by
  induction rest with
  | nil =>
    intro processed bm bm' w w' hinv hs
    simp only [BufferManager.addTensors, Option.some.injEq, Prod.mk.injEq] at hs
    rw [List.append_nil, ← hs.1]
    exact hinv
  | cons name rest ih =>
    intro processed bm bm' w w' hinv hs
    simp only [BufferManager.addTensors] at hs
    cases h1 : BufferManager.addTensor aDev aHost context processed.length name bm w with
    | none => simp [h1] at hs
    | some r =>
      obtain ⟨bm1, w1⟩ := r
      simp only [h1] at hs
      have hinv1 := constructInv_addTensor e batchSize context aDev aHost processed name bm bm1 w w1
        hinv h1
      have := ih (processed ++ [name]) bm1 bm' w1 w' hinv1 (by simpa using hs)
      simpa using this

theorem constructInv_of_construct (aDev aHost : AllocFunc) (e : ICudaEngine) (batchSize : Int)
    (context : ContextShapes) (w w' : World) (bm : BufferManager)
    (hs : BufferManager.construct aDev aHost e batchSize context w = some (bm, w')) :
    ConstructInv e batchSize context e.ioTensorNames bm := by
  unfold BufferManager.construct at hs
  have h0 : ConstructInv e batchSize context []
      { mEngine := e, mBatchSize := batchSize, mManagedBuffers := [],
        mDeviceBindings := [], mNames := [] } :=
    ⟨rfl, rfl, List.Forall₂.nil, rfl,
      fun s => ⟨fun _ => rfl, fun h => absurd h (List.not_mem_nil s)⟩, fun _ => rfl⟩
  have := constructInv_addTensors e batchSize context aDev aHost e.ioTensorNames [] _ bm w w' h0 hs
  simpa using this

theorem constructInv_managed_sized (e : ICudaEngine) (batchSize : Int)
    (context : ContextShapes) (names : List String) (bm : BufferManager)
    (hinv : ConstructInv e batchSize context names bm) (i : Nat) (name : String)
    (hi : names[i]? = some name) :
    bm.mManagedBuffers[i]? = some (bm.managed i) ∧
    SizedFor e batchSize context name (bm.managed i) := by
  obtain ⟨hlen, hall⟩ := List.forall₂_iff_get.mp hinv.sized
  obtain ⟨hlt, hget⟩ := List.getElem?_eq_some.mp hi
  have hlt2 : i < bm.mManagedBuffers.length := hlen ▸ hlt
  have hm : bm.managed i = bm.mManagedBuffers[i] := by
    unfold BufferManager.managed
    exact List.getD_eq_getElem _ _ hlt2
  have := hall i hlt hlt2
  simp only [List.get_eq_getElem] at this
  rw [hget] at this
  rw [hm]
  exact ⟨List.getElem?_eq_getElem hlt2, this⟩

theorem getD_nonneg (d : Dims) (k : Nat) (h : ∀ x ∈ d, 0 ≤ x) : 0 ≤ d.getD k 0 := by
  by_cases hk : k < d.length
  · rw [List.getD_eq_getElem _ _ hk]
    exact h _ (List.getElem_mem hk)
  · rw [List.getD_eq_getElem?_getD, List.getElem?_eq_none (by omega)]
    simp

/-- C3. After the constructor of `BufferManager` has returned, the host buffer and
the device buffer of tensor `i` both have the tensor's declared element type and
the same element count `B * V` (as a `size_t`, so modulo `2 ^ 64`; the exact
product when it fits), with `B` and `V` as the specification words them
(`specBatch`, `specVolume`). The constructor returns whenever the two allocation
strategies succeed. For a non-vectorized float32 tensor `Input3` of shape
`[1, 1, 28, 28]` and batch size 0, `size("Input3")` is `28 * 28 * 4 = 3136`. -/
theorem bufferManager_element_counts :
    (∀ (aDev aHost : AllocFunc) (e : ICudaEngine) (batchSize : Int) (context : ContextShapes)
        (w w' : World) (bm : BufferManager),
      BufferManager.construct aDev aHost e batchSize context w = some (bm, w') →
      ∀ (i : Nat) (name : String), e.ioTensorNames[i]? = some name →
        (∀ x ∈ BufferManager.queriedDims e context name, 0 ≤ x) →
        (e.getTensorVectorizedDim name ≠ -1 →
          0 ≤ e.getTensorVectorizedDim name ∧
          e.getTensorVectorizedDim name < (BufferManager.queriedDims e context name).length ∧
          1 ≤ e.getTensorComponentsPerElement name) →
        (bm.managed i).hostBuffer.mType = e.getTensorDataType name ∧
        (bm.managed i).deviceBuffer.mType = e.getTensorDataType name ∧
        (bm.managed i).hostBuffer.size =
          toSizeT (specBatch batchSize context *
            specVolume (BufferManager.queriedDims e context name)
              (e.getTensorVectorizedDim name) (e.getTensorComponentsPerElement name)) ∧
        (bm.managed i).deviceBuffer.size = (bm.managed i).hostBuffer.size ∧
        (0 ≤ specBatch batchSize context *
            specVolume (BufferManager.queriedDims e context name)
              (e.getTensorVectorizedDim name) (e.getTensorComponentsPerElement name) →
          specBatch batchSize context *
            specVolume (BufferManager.queriedDims e context name)
              (e.getTensorVectorizedDim name) (e.getTensorComponentsPerElement name) < 2 ^ 64 →
          (((bm.managed i).hostBuffer.size : Nat) : Int) =
            specBatch batchSize context *
              specVolume (BufferManager.queriedDims e context name)
                (e.getTensorVectorizedDim name) (e.getTensorComponentsPerElement name))) ∧
    (∀ (aDev aHost : AllocFunc) (e : ICudaEngine) (batchSize : Int) (context : ContextShapes)
        (w : World),
      (∀ h n, (aDev h n).isSome = true) → (∀ h n, (aHost h n).isSome = true) →
      (BufferManager.construct aDev aHost e batchSize context w).isSome = true) ∧
    (∀ (aDev aHost : AllocFunc) (e : ICudaEngine) (w w' : World) (bm : BufferManager),
      BufferManager.construct aDev aHost e 0 none w = some (bm, w') →
      "Input3" ∈ e.ioTensorNames →
      e.getTensorShape "Input3" = [1, 1, 28, 28] →
      e.getTensorDataType "Input3" = DataType.kFLOAT →
      e.getTensorVectorizedDim "Input3" = -1 →
      bm.size "Input3" = 28 * 28 * 4 ∧ bm.size "Input3" = 3136) := by
  refine ⟨?_, ?_, ?_⟩
  · intro aDev aHost e batchSize context w w' bm hc i name hi hnn hvec
    have hinv := constructInv_of_construct aDev aHost e batchSize context w w' bm hc
    obtain ⟨-, s1, -, s3, s4, -, s6⟩ := constructInv_managed_sized e batchSize context _ bm hinv i name hi
    have hcount := elementCount_eq_spec e batchSize context name
      (fun hv => ⟨(hvec hv).2.2, getD_nonneg _ _ hnn⟩)
    refine ⟨s6, s3, ?_, ?_, ?_⟩
    · simp only [GenericBuffer.size]
      rw [s4, hcount]
    · simp only [GenericBuffer.size]
      rw [s1, s4]
    · intro h0 h1
      simp only [GenericBuffer.size]
      rw [s4, hcount]
      exact toSizeT_of_fits _ h0 h1
  · intro aDev aHost e batchSize context w hDev hHost
    exact BufferManager.addTensors_isSome aDev aHost context hDev hHost _ _ _ _
  · intro aDev aHost e w w' bm hc hmem hshape htype hvec
    have hinv := constructInv_of_construct aDev aHost e 0 none w w' bm hc
    obtain ⟨i, hi, hf⟩ := (hinv.names "Input3").2 hmem
    obtain ⟨-, -, -, -, s4, -, s6⟩ := constructInv_managed_sized e 0 none _ bm hinv i "Input3" hi
    have hsz : bm.size "Input3" = 3136 := by
      unfold BufferManager.size
      rw [hf]
      simp only [GenericBuffer.nbBytes, GenericBuffer.size]
      rw [s4, s6, htype]
      have hcount : BufferManager.elementCount e 0 none "Input3" = 784 := by
        simp only [BufferManager.elementCount, BufferManager.queriedDims, hvec, hshape,
          ne_eq, not_true_eq_false, if_false]
        decide
      rw [hcount]
      decide
    exact ⟨hsz, hsz⟩

/-- Witness of C3 on the vectorized tensor of `packedEngine`: extent 3 packed by
4 gives 4 * (1 * 1 * 4 * 4) = 64 elements in both buffers. -/
theorem bufferManager_element_counts_witness :
    ∃ (bm : BufferManager) (w' : World),
      BufferManager.construct bumpAlloc bumpAlloc packedEngine 0 none World.init
        = some (bm, w') ∧
      (bm.managed 0).hostBuffer.size = 64 ∧ (bm.managed 0).deviceBuffer.size = 64 ∧
      (bm.managed 0).hostBuffer.mType = DataType.kHALF := by
  have hsome := bufferManager_element_counts.2.1 bumpAlloc bumpAlloc packedEngine 0 none
    World.init (fun _ _ => rfl) (fun _ _ => rfl)
  obtain ⟨r, hr⟩ := Option.isSome_iff_exists.mp hsome
  obtain ⟨bm, w'⟩ := r
  have h := bufferManager_element_counts.1 bumpAlloc bumpAlloc packedEngine 0 none
    World.init w' bm hr 0 "x" rfl (by decide) (fun _ => by decide)
  obtain ⟨h1, -, h3, h4, -⟩ := h
  have hv : toSizeT (specBatch 0 none *
      specVolume (BufferManager.queriedDims packedEngine none "x")
        (packedEngine.getTensorVectorizedDim "x")
        (packedEngine.getTensorComponentsPerElement "x")) = 64 := by
    rw [← elementCount_eq_spec packedEngine 0 none "x" (fun _ => by decide)]
    decide
  rw [hv] at h3
  exact ⟨bm, w', hr, h3, h4.trans h3, h1⟩

/-! ### Vectorized tensors -/

theorem prod_set_mul (d : Dims) (k : Nat) (s c : Int) (hk : k < d.length) :
    (d.set k (s * c)).prod = s * (d.set k c).prod := by
  rw [List.prod_set, List.prod_set]
  simp only [hk, if_true]
  ring

theorem set_getD_self (d : Dims) (k : Nat) (hk : k < d.length) :
    d.set k (d.getD k 0) = d := by
  rw [List.getD_eq_getElem _ _ hk]
  apply List.ext_getElem
  · simp
  · intro i h1 h2
    by_cases hik : k = i
    · subst hik
      simp
    · simp [List.getElem_set, hik]

theorem specRoundUp_bounds (x n : Int) (hx : 0 ≤ x) (hn : 1 ≤ n) :
    n ∣ specRoundUp x n ∧ x ≤ specRoundUp x n ∧ specRoundUp x n < x + n := by
  unfold specRoundUp
  rw [← divUp_eq_specCeilDiv x n hx hn, divUp_eq_ediv x n hx hn]
  have hnpos : (0 : Int) < n := by omega
  have hdm := Int.emod_add_ediv (x + n - 1) n
  have hr0 := Int.emod_nonneg (x + n - 1) (show n ≠ 0 by omega)
  have hr1 := Int.emod_lt_of_pos (x + n - 1) hnpos
  refine ⟨Dvd.intro _ rfl, ?_, ?_⟩ <;> linarith

/-- C4, as amended. For a tensor vectorized along dimension `vecDim` (in range)
with `scalarsPerVec >= 1` and non-negative extents, the element count of the
constructor is, as a `size_t`, the batch factor times the product of the extents
with the vectorized extent rounded up to the next multiple of `scalarsPerVec`;
the rounded extent is a multiple of `scalarsPerVec`, at least the extent and less
than the extent plus `scalarsPerVec`. Whenever `scalarsPerVec` divides the
vectorized extent, the count is the batch factor times the product of the
original extents. -/
theorem vectorized_count_padded (e : ICudaEngine) (batchSize : Int) (context : ContextShapes)
    (name : String)
    (hvec : e.getTensorVectorizedDim name ≠ -1)
    (hlo : 0 ≤ e.getTensorVectorizedDim name)
    (hup : e.getTensorVectorizedDim name <
      ((BufferManager.queriedDims e context name).length : Int))
    (hspv : 1 ≤ e.getTensorComponentsPerElement name)
    (hnn : ∀ x ∈ BufferManager.queriedDims e context name, 0 ≤ x) :
    BufferManager.elementCount e batchSize context name =
      toSizeT (specBatch batchSize context *
        ((BufferManager.queriedDims e context name).set (e.getTensorVectorizedDim name).toNat
          (specRoundUp
            ((BufferManager.queriedDims e context name).getD
              (e.getTensorVectorizedDim name).toNat 0)
            (e.getTensorComponentsPerElement name))).prod) ∧
    (e.getTensorComponentsPerElement name ∣
        specRoundUp
          ((BufferManager.queriedDims e context name).getD
            (e.getTensorVectorizedDim name).toNat 0)
          (e.getTensorComponentsPerElement name) ∧
      (BufferManager.queriedDims e context name).getD (e.getTensorVectorizedDim name).toNat 0 ≤
        specRoundUp
          ((BufferManager.queriedDims e context name).getD
            (e.getTensorVectorizedDim name).toNat 0)
          (e.getTensorComponentsPerElement name) ∧
      specRoundUp
          ((BufferManager.queriedDims e context name).getD
            (e.getTensorVectorizedDim name).toNat 0)
          (e.getTensorComponentsPerElement name) <
        (BufferManager.queriedDims e context name).getD (e.getTensorVectorizedDim name).toNat 0 +
          e.getTensorComponentsPerElement name) ∧
    (e.getTensorComponentsPerElement name ∣
        (BufferManager.queriedDims e context name).getD (e.getTensorVectorizedDim name).toNat 0 →
      BufferManager.elementCount e batchSize context name =
        toSizeT (specBatch batchSize context *
          (BufferManager.queriedDims e context name).prod)) := by
  have hhi : (e.getTensorVectorizedDim name).toNat <
      (BufferManager.queriedDims e context name).length := by
    have := Int.toNat_of_nonneg hlo
    omega
  have hx := getD_nonneg (BufferManager.queriedDims e context name)
    (e.getTensorVectorizedDim name).toNat hnn
  have hcount := elementCount_eq_spec e batchSize context name (fun _ => ⟨hspv, hx⟩)
  have hpad : BufferManager.elementCount e batchSize context name =
      toSizeT (specBatch batchSize context *
        ((BufferManager.queriedDims e context name).set (e.getTensorVectorizedDim name).toNat
          (specRoundUp
            ((BufferManager.queriedDims e context name).getD
              (e.getTensorVectorizedDim name).toNat 0)
            (e.getTensorComponentsPerElement name))).prod) := by
    rw [hcount]
    unfold specVolume specRoundUp
    rw [if_neg hvec, prod_set_mul _ _ _ _ hhi]
  refine ⟨hpad, specRoundUp_bounds _ _ hx hspv, ?_⟩
  intro hdvd
  rw [hpad]
  unfold specRoundUp
  rw [← divUp_eq_specCeilDiv _ _ hx hspv, divUp_mul_of_dvd _ _ hx hspv hdvd,
    set_getD_self _ _ hhi]

/-- Witness of the amended C4 on `packedEngine`: extent 3 packed by 4 is padded
to 4, so 1 * 4 * 4 * 4 = 64 elements are allocated. -/
theorem vectorized_count_padded_witness :
    BufferManager.elementCount packedEngine 0 none "x" =
      toSizeT (specBatch 0 none * ([1, specRoundUp 3 4, 4, 4] : Dims).prod) ∧
    (3 : Int) ≤ specRoundUp 3 4 ∧
    BufferManager.elementCount packedEngine 0 none "x" = 64 := by
  have h := vectorized_count_padded packedEngine 0 none "x" (by decide) (by decide)
    (by decide) (by decide) (by decide)
  exact ⟨h.1, h.2.1.2.1, by decide⟩

/-- Counterexample to C4 as stated: for the tensor of `packedEngine` (extents
`[1, 3, 4, 4]`, vectorized along dimension 1, 4 components per element, batch
factor 1) the constructor allocates 64 elements in both buffers, while the
batch factor times the product of the original extents is 48. -/
theorem vectorized_count_not_preserved :
    packedEngine.getTensorVectorizedDim "x" ≠ -1 ∧
    1 ≤ packedEngine.getTensorComponentsPerElement "x" ∧
    (∀ x ∈ BufferManager.queriedDims packedEngine none "x", 0 ≤ x) ∧
    BufferManager.elementCount packedEngine 0 none "x" = 64 ∧
    (BufferManager.construct bumpAlloc bumpAlloc packedEngine 0 none World.init).map
        (fun r => ((r.1.managed 0).deviceBuffer.size, (r.1.managed 0).hostBuffer.size))
      = some (64, 64) ∧
    toSizeT (specBatch 0 none * (BufferManager.queriedDims packedEngine none "x").prod) = 48 := by
  refine ⟨by decide, by decide, by decide, by decide, by decide, by decide⟩

/-! ### Bindings and lookups of a constructed manager -/

theorem find_of_nodup (names : List String) (m : NameMap) (hinv : NamesInv names m)
    (hnd : names.Nodup) (i : Nat) (name : String) (hi : names[i]? = some name) :
    m.find name = some i := by
  have hmem : name ∈ names := List.mem_iff_getElem?.mpr ⟨i, hi⟩
  obtain ⟨j, hj, hf⟩ := (hinv name).2 hmem
  obtain ⟨hil, hig⟩ := List.getElem?_eq_some.mp hi
  obtain ⟨hjl, hjg⟩ := List.getElem?_eq_some.mp hj
  have hij : j = i := (List.Nodup.getElem_inj_iff hnd).mp (hjg.trans hig.symm)
  rw [hf, hij]

theorem memcpyBuffers_manager (bm bm1 : BufferManager) (cuda : CudaRuntime)
    (order : List (String × Nat)) (copyInput deviceToHost async : Bool) (mem mem1 : Memory)
    (h : bm.memcpyBuffers cuda order copyInput deviceToHost async mem = some (bm1, mem1)) :
    bm1 = bm := by
  unfold BufferManager.memcpyBuffers at h
  cases hm : bm.memcpyOver cuda copyInput deviceToHost async order mem with
  | none => simp [hm] at h
  | some m1 =>
    simp only [hm, Option.some.injEq, Prod.mk.injEq] at h
    exact h.1.symm

/-- C5. For an engine whose `n` tensor names are pairwise distinct, after the
constructor the device bindings have length `n`, binding `i` is the data pointer
of the device buffer of the `i`-th managed pair, the map sends the `i`-th name to
`i`, and `getDeviceBuffer` of the `i`-th name is binding `i`. The copy operations
(synchronous and asynchronous, every argument of `memcpyBuffers`) leave the name
map, the bindings and the managed buffers as they are; `size`, `getDeviceBuffer`
and `getHostBuffer` are const members, functions of the manager that return a
value only. -/
theorem device_bindings_mirror (aDev aHost : AllocFunc) (e : ICudaEngine) (batchSize : Int)
    (context : ContextShapes) (w w' : World) (bm : BufferManager)
    (hc : BufferManager.construct aDev aHost e batchSize context w = some (bm, w'))
    (hnd : e.ioTensorNames.Nodup) :
    bm.getDeviceBindings.length = e.ioTensorNames.length ∧
    bm.mManagedBuffers.length = e.ioTensorNames.length ∧
    (∀ i : Nat, i < e.ioTensorNames.length →
      bm.mManagedBuffers[i]? = some (bm.managed i) ∧
      bm.getDeviceBindings[i]? = some (bm.managed i).deviceBuffer.data) ∧
    (∀ (i : Nat) (name : String), e.ioTensorNames[i]? = some name →
      bm.mNames.find name = some i ∧
      bm.getDeviceBindings[i]? = some (bm.getDeviceBuffer name)) ∧
    (∀ (cuda : CudaRuntime) (order : List (String × Nat)) (copyInput deviceToHost async : Bool)
        (mem mem1 : Memory) (bm1 : BufferManager),
      bm.memcpyBuffers cuda order copyInput deviceToHost async mem = some (bm1, mem1) →
      bm1.mNames = bm.mNames ∧ bm1.mDeviceBindings = bm.mDeviceBindings ∧
      bm1.mManagedBuffers = bm.mManagedBuffers) := by
  have hinv := constructInv_of_construct aDev aHost e batchSize context w w' bm hc
  have hlen : bm.mManagedBuffers.length = e.ioTensorNames.length :=
    (List.Forall₂.length_eq hinv.sized).symm
  have hbind : ∀ i : Nat, i < e.ioTensorNames.length →
      bm.mManagedBuffers[i]? = some (bm.managed i) ∧
      bm.getDeviceBindings[i]? = some (bm.managed i).deviceBuffer.data := by
    intro i hi
    have hi2 : i < bm.mManagedBuffers.length := hlen ▸ hi
    have hm : bm.mManagedBuffers[i]? = some (bm.managed i) := by
      unfold BufferManager.managed
      rw [List.getD_eq_getElem _ _ hi2]
      exact List.getElem?_eq_getElem hi2
    refine ⟨hm, ?_⟩
    unfold BufferManager.getDeviceBindings
    rw [hinv.bindings, List.getElem?_map, hm]
    rfl
  refine ⟨?_, hlen, hbind, ?_, ?_⟩
  · unfold BufferManager.getDeviceBindings
    rw [hinv.bindings, List.length_map, hlen]
  · intro i name hi
    have hf := find_of_nodup _ _ hinv.names hnd i name hi
    refine ⟨hf, ?_⟩
    obtain ⟨hil, -⟩ := List.getElem?_eq_some.mp hi
    rw [(hbind i hil).2]
    simp [BufferManager.getDeviceBuffer, BufferManager.getBuffer, hf]
  · intro cuda order copyInput deviceToHost async mem mem1 bm1 h
    rw [memcpyBuffers_manager bm bm1 cuda order copyInput deviceToHost async mem mem1 h]
    exact ⟨rfl, rfl, rfl⟩

/-- Witness of C5 on the MNIST engine: two bindings, the first one the device
buffer of `Input3`. -/
theorem device_bindings_mirror_witness :
    ∃ (bm : BufferManager) (w' : World),
      BufferManager.construct bumpAlloc bumpAlloc mnistEngine 0 none World.init
        = some (bm, w') ∧
      bm.getDeviceBindings.length = 2 ∧
      bm.getDeviceBindings[0]? = some (bm.getDeviceBuffer "Input3") ∧
      bm.getDeviceBindings[1]? = some (bm.getDeviceBuffer "Plus214_Output_0") := by
  have hsome := BufferManager.addTensors_isSome bumpAlloc bumpAlloc none
    (fun _ _ => rfl) (fun _ _ => rfl) mnistEngine.ioTensorNames 0
    { mEngine := mnistEngine, mBatchSize := 0, mManagedBuffers := [],
      mDeviceBindings := [], mNames := [] } World.init
  obtain ⟨r, hr⟩ := Option.isSome_iff_exists.mp hsome
  obtain ⟨bm, w'⟩ := r
  have h := device_bindings_mirror bumpAlloc bumpAlloc mnistEngine 0 none World.init w' bm hr
    (by decide)
  exact ⟨bm, w', hr, h.1, (h.2.2.2.1 0 "Input3" rfl).2,
    (h.2.2.2.1 1 "Plus214_Output_0" rfl).2⟩

/-- C6. In a constructed manager, for a string that is not the name of a tensor of
the engine `getDeviceBuffer` and `getHostBuffer` return the null pointer and
`size` returns `kINVALID_SIZE_VALUE = 2 ^ 64 - 1`; all three are total, no path
of them ends the process. For a registered name they return the data pointers of
the device and host buffers of a managed pair of that name (the pair of index `i`
when the names are pairwise distinct and the name is the `i`-th), and `size`
returns the `nbBytes()` of that pair's host buffer. -/
theorem lookup_by_name (aDev aHost : AllocFunc) (e : ICudaEngine) (batchSize : Int)
    (context : ContextShapes) (w w' : World) (bm : BufferManager)
    (hc : BufferManager.construct aDev aHost e batchSize context w = some (bm, w')) :
    BufferManager.kINVALID_SIZE_VALUE = 2 ^ 64 - 1 ∧
    (∀ s : String, s ∉ e.ioTensorNames →
      bm.getDeviceBuffer s = nullptr ∧ bm.getHostBuffer s = nullptr ∧
      bm.size s = BufferManager.kINVALID_SIZE_VALUE) ∧
    (∀ s : String, s ∈ e.ioTensorNames →
      ∃ i : Nat, e.ioTensorNames[i]? = some s ∧
        bm.mManagedBuffers[i]? = some (bm.managed i) ∧
        bm.getDeviceBuffer s = (bm.managed i).deviceBuffer.data ∧
        bm.getHostBuffer s = (bm.managed i).hostBuffer.data ∧
        bm.size s = (bm.managed i).hostBuffer.nbBytes) ∧
    (e.ioTensorNames.Nodup → ∀ (i : Nat) (s : String), e.ioTensorNames[i]? = some s →
        bm.getDeviceBuffer s = (bm.managed i).deviceBuffer.data ∧
        bm.getHostBuffer s = (bm.managed i).hostBuffer.data ∧
        bm.size s = (bm.managed i).hostBuffer.nbBytes) := by
  have hinv := constructInv_of_construct aDev aHost e batchSize context w w' bm hc
  refine ⟨rfl, ?_, ?_, ?_⟩
  · intro s hs
    have hf := (hinv.names s).1 hs
    simp [BufferManager.getDeviceBuffer, BufferManager.getHostBuffer, BufferManager.getBuffer,
      BufferManager.size, hf]
  · intro s hs
    obtain ⟨i, hi, hf⟩ := (hinv.names s).2 hs
    refine ⟨i, hi, (constructInv_managed_sized e batchSize context _ bm hinv i s hi).1, ?_⟩
    simp [BufferManager.getDeviceBuffer, BufferManager.getHostBuffer, BufferManager.getBuffer,
      BufferManager.size, hf]
  · intro hnd i s hi
    have hf := find_of_nodup _ _ hinv.names hnd i s hi
    simp [BufferManager.getDeviceBuffer, BufferManager.getHostBuffer, BufferManager.getBuffer,
      BufferManager.size, hf]

/-- Witness of C6 on the MNIST engine: the unknown name `nonexistent` gives the
null pointer and the all-ones size. -/
theorem lookup_by_name_witness :
    ∃ (bm : BufferManager) (w' : World),
      BufferManager.construct bumpAlloc bumpAlloc mnistEngine 0 none World.init
        = some (bm, w') ∧
      bm.getDeviceBuffer "nonexistent" = 0 ∧ bm.getHostBuffer "nonexistent" = 0 ∧
      bm.size "nonexistent" = 18446744073709551615 := by
  have hsome := BufferManager.addTensors_isSome bumpAlloc bumpAlloc none
    (fun _ _ => rfl) (fun _ _ => rfl) mnistEngine.ioTensorNames 0
    { mEngine := mnistEngine, mBatchSize := 0, mManagedBuffers := [],
      mDeviceBindings := [], mNames := [] } World.init
  obtain ⟨r, hr⟩ := Option.isSome_iff_exists.mp hsome
  obtain ⟨bm, w'⟩ := r
  have h := lookup_by_name bumpAlloc bumpAlloc mnistEngine 0 none World.init w' bm hr
  obtain ⟨h1, h2, h3⟩ := h.2.1 "nonexistent" (by decide)
  exact ⟨bm, w', hr, h1, h2, h3.trans h.1⟩

/-! ### Copies between host and device -/

theorem memcpyEntry_ok (bm : BufferManager) (cuda : CudaRuntime)
    (copyInput deviceToHost async : Bool) (mem : Memory) (n : String × Nat)
    (hok : ∀ k d b,
      (if async = true then cuda.cudaMemcpyAsync k d b else cuda.cudaMemcpy k d b) = 0) :
    bm.memcpyEntry cuda copyInput deviceToHost async mem n =
      some (if bm.copies copyInput n.1 = true then
              Function.update mem n.2
                ((mem n.2).transfer deviceToHost (bm.managed n.2).hostBuffer.nbBytes)
            else mem) := by
  unfold BufferManager.memcpyEntry
  by_cases hcp : bm.copies copyInput n.1 = true
  · simp [hcp, hok]
  · simp [hcp]

theorem memcpyOver_effect (bm : BufferManager) (cuda : CudaRuntime)
    (copyInput deviceToHost async : Bool)
    (hok : ∀ k d b,
      (if async = true then cuda.cudaMemcpyAsync k d b else cuda.cudaMemcpy k d b) = 0)
    (order : List (String × Nat)) :
    ∀ (mem : Memory), (order.map Prod.snd).Nodup →
      ∃ mem1 : Memory,
        bm.memcpyOver cuda copyInput deviceToHost async order mem = some mem1 ∧
        ∀ k : Nat,
          (∀ name : String, (name, k) ∈ order → bm.copies copyInput name = true →
            mem1 k = (mem k).transfer deviceToHost (bm.managed k).hostBuffer.nbBytes) ∧
          ((∀ name : String, (name, k) ∈ order → bm.copies copyInput name = false) →
            mem1 k = mem k) := by
  induction order with
  | nil =>
    intro mem _
    exact ⟨mem, rfl, fun k => ⟨fun name hm => absurd hm (List.not_mem_nil _), fun _ => rfl⟩⟩
  | cons n rest ih =>
    intro mem hnd
    obtain ⟨nm, j⟩ := n
    simp only [List.map_cons, List.nodup_cons] at hnd
    obtain ⟨hj, hrest⟩ := hnd
    have hjrest : ∀ name : String, (name, j) ∉ rest := by
      intro name hmem
      exact hj (List.mem_map.mpr ⟨(name, j), hmem, rfl⟩)
    have hstep := memcpyEntry_ok bm cuda copyInput deviceToHost async mem (nm, j) hok
    obtain ⟨mem1, hrun, heff⟩ := ih
      (if bm.copies copyInput nm = true then
          Function.update mem j
            ((mem j).transfer deviceToHost (bm.managed j).hostBuffer.nbBytes)
        else mem) hrest
    refine ⟨mem1, ?_, ?_⟩
    · simp only [BufferManager.memcpyOver, hstep]
      exact hrun
    · intro k
      constructor
      · intro name hmem hcp
        rcases List.mem_cons.mp hmem with heq | hin
        · obtain ⟨h1, h2⟩ := Prod.mk.inj heq
          subst h1 h2
          have := (heff k).2 (fun name' hm' => absurd hm' (hjrest name'))
          rw [this, if_pos hcp, Function.update_same]
        · have hkj : k ≠ j := by
            intro hkj
            subst hkj
            exact hjrest name hin
          rw [(heff k).1 name hin hcp]
          by_cases hc2 : bm.copies copyInput nm = true
          · rw [if_pos hc2, Function.update_noteq hkj]
          · rw [if_neg hc2]
      · intro hall
        have hall2 : ∀ name : String, (name, k) ∈ rest → bm.copies copyInput name = false :=
          fun name hm => hall name (List.mem_cons_of_mem _ hm)
        rw [(heff k).2 hall2]
        by_cases hc2 : bm.copies copyInput nm = true
        · have hkj : k ≠ j := by
            intro hkj
            subst hkj
            have := hall nm (List.mem_cons_self _ _)
            rw [hc2] at this
            exact absurd this (by decide)
          rw [if_pos hc2, Function.update_noteq hkj]
        · rw [if_neg hc2]

theorem mem_zip_range (names : List String) (name : String) (k : Nat) :
    (name, k) ∈ names.zip (List.range names.length) ↔ names[k]? = some name := by
  rw [List.mem_iff_getElem]
  constructor
  · rintro ⟨i, hi, heq⟩
    rw [List.getElem_zip] at heq
    obtain ⟨h1, h2⟩ := Prod.mk.inj heq
    rw [List.getElem_range] at h2
    subst h2
    rw [List.getElem?_eq_some]
    have hi2 : i < names.length := by
      simp only [List.length_zip, List.length_range, min_self] at hi
      exact hi
    exact ⟨hi2, h1⟩
  · intro h
    obtain ⟨hk, hget⟩ := List.getElem?_eq_some.mp h
    have hk2 : k < (names.zip (List.range names.length)).length := by
      simp only [List.length_zip, List.length_range, min_self]
      exact hk
    refine ⟨k, hk2, ?_⟩
    rw [List.getElem_zip, List.getElem_range, hget]

/-- The effect of `memcpyBuffers` on a constructed manager whose tensor names are
pairwise distinct, for every iteration order of `mNames`. -/
theorem memcpyBuffers_effect (aDev aHost : AllocFunc) (e : ICudaEngine) (batchSize : Int)
    (context : ContextShapes) (w w' : World) (bm : BufferManager)
    (hc : BufferManager.construct aDev aHost e batchSize context w = some (bm, w'))
    (hnd : e.ioTensorNames.Nodup) (cuda : CudaRuntime)
    (order : List (String × Nat)) (hperm : order.Perm bm.mNames)
    (copyInput deviceToHost async : Bool)
    (hok : ∀ k d b,
      (if async = true then cuda.cudaMemcpyAsync k d b else cuda.cudaMemcpy k d b) = 0)
    (mem : Memory) :
    ∃ mem1 : Memory,
      bm.memcpyBuffers cuda order copyInput deviceToHost async mem = some (bm, mem1) ∧
      ∀ (i : Nat) (name : String), e.ioTensorNames[i]? = some name →
        mem1 i =
          if bm.copies copyInput name = true then
            (mem i).transfer deviceToHost (bm.managed i).hostBuffer.nbBytes
          else mem i := by
  have hinv := constructInv_of_construct aDev aHost e batchSize context w w' bm hc
  have hent := hinv.entries hnd
  have hnodup : (order.map Prod.snd).Nodup := by
    rw [(hperm.map Prod.snd).nodup_iff, hent, List.map_snd_zip _ _ (by simp)]
    exact List.nodup_range _
  obtain ⟨mem1, hrun, heff⟩ :=
    memcpyOver_effect bm cuda copyInput deviceToHost async hok order mem hnodup
  refine ⟨mem1, by simp [BufferManager.memcpyBuffers, hrun], ?_⟩
  intro i name hi
  have hmem : (name, i) ∈ order := by
    rw [hperm.mem_iff, hent, mem_zip_range]
    exact hi
  by_cases hcp : bm.copies copyInput name = true
  · rw [if_pos hcp]
    exact (heff i).1 name hmem hcp
  · rw [if_neg hcp]
    apply (heff i).2
    intro name' hm'
    rw [hperm.mem_iff, hent, mem_zip_range, hi] at hm'
    have : name = name' := Option.some.inj hm'
    subst this
    simpa using hcp

theorem mnistManager_constructed :
    BufferManager.construct bumpAlloc bumpAlloc mnistEngine 0 none World.init
      = some (mnistManager, mnistWorld) := by
  rfl

theorem roundtrip_bytes (host device : List UInt8) (n : Nat) (hn : n ≤ host.length) :
    memcpyBytes host (memcpyBytes device host n) n = host := by
  unfold memcpyBytes
  rw [List.take_left' (by simp [hn]), List.take_append_drop]

/-- C7. With each buffer's contents an explicit byte array, on a constructed
manager with pairwise distinct tensor names, for every iteration order of the
name map and a transfer primitive that reports success: `copyInputToDevice`
returns, replaces the first `nbBytes()` bytes of the device buffer of exactly the
tensors whose I/O mode is input by the first `nbBytes()` bytes of the paired host
buffer, and changes no host buffer and no other device buffer;
`copyOutputToHost` returns, replaces the first `nbBytes()` bytes of the host
buffer of exactly the tensors that are not inputs by those of the paired device
buffer, and changes no device buffer and no input's host buffer. A host to
device copy followed by the device to host copy of the same tensors gives back
every host buffer that holds at least `nbBytes()` bytes, byte for byte. -/
theorem copy_frame (aDev aHost : AllocFunc) (e : ICudaEngine) (batchSize : Int)
    (context : ContextShapes) (w w' : World) (bm : BufferManager)
    (hc : BufferManager.construct aDev aHost e batchSize context w = some (bm, w'))
    (hnd : e.ioTensorNames.Nodup) (cuda : CudaRuntime)
    (hok : ∀ k d b, cuda.cudaMemcpy k d b = 0)
    (order : List (String × Nat)) (hperm : order.Perm bm.mNames) (mem : Memory) :
    (∃ mem1 : Memory,
      bm.copyInputToDevice cuda order mem = some (bm, mem1) ∧
      ∀ (i : Nat) (name : String), e.ioTensorNames[i]? = some name →
        (mem1 i).host = (mem i).host ∧
        (e.getTensorIOMode name = TensorIOMode.kINPUT →
          (mem1 i).device =
            (mem i).host.take (bm.managed i).hostBuffer.nbBytes ++
              (mem i).device.drop (bm.managed i).hostBuffer.nbBytes) ∧
        (e.getTensorIOMode name ≠ TensorIOMode.kINPUT → (mem1 i).device = (mem i).device)) ∧
    (∃ mem2 : Memory,
      bm.copyOutputToHost cuda order mem = some (bm, mem2) ∧
      ∀ (i : Nat) (name : String), e.ioTensorNames[i]? = some name →
        (mem2 i).device = (mem i).device ∧
        (e.getTensorIOMode name ≠ TensorIOMode.kINPUT →
          (mem2 i).host =
            (mem i).device.take (bm.managed i).hostBuffer.nbBytes ++
              (mem i).host.drop (bm.managed i).hostBuffer.nbBytes) ∧
        (e.getTensorIOMode name = TensorIOMode.kINPUT → (mem2 i).host = (mem i).host)) ∧
    (∀ copyInput : Bool, ∃ mem1 mem2 : Memory,
      bm.memcpyBuffers cuda order copyInput false false mem = some (bm, mem1) ∧
      bm.memcpyBuffers cuda order copyInput true false mem1 = some (bm, mem2) ∧
      ∀ (i : Nat) (name : String), e.ioTensorNames[i]? = some name →
        (bm.managed i).hostBuffer.nbBytes ≤ (mem i).host.length →
        (mem2 i).host = (mem i).host) := by
  have hinv := constructInv_of_construct aDev aHost e batchSize context w w' bm hc
  have hok2 : ∀ k d b,
      (if false = true then cuda.cudaMemcpyAsync k d b else cuda.cudaMemcpy k d b) = 0 := by
    intro k d b
    simpa using hok k d b
  have heff := fun (ci d2h : Bool) (m : Memory) =>
    memcpyBuffers_effect aDev aHost e batchSize context w w' bm hc hnd cuda order hperm
      ci d2h false hok2 m
  have hin : ∀ name : String,
      bm.copies true name = true ↔ e.getTensorIOMode name = TensorIOMode.kINPUT := by
    intro name
    simp [BufferManager.copies, BufferManager.tenosrIsInput, hinv.engine_eq]
  have hout : ∀ name : String,
      bm.copies false name = true ↔ e.getTensorIOMode name ≠ TensorIOMode.kINPUT := by
    intro name
    simp [BufferManager.copies, BufferManager.tenosrIsInput, hinv.engine_eq]
  refine ⟨?_, ?_, ?_⟩
  · obtain ⟨mem1, hrun, h⟩ := heff true false mem
    refine ⟨mem1, hrun, ?_⟩
    intro i name hi
    have hi1 := h i name hi
    by_cases hmode : e.getTensorIOMode name = TensorIOMode.kINPUT
    · rw [if_pos ((hin name).mpr hmode)] at hi1
      rw [hi1]
      exact ⟨rfl, fun _ => rfl, fun hne => absurd hmode hne⟩
    · rw [if_neg (fun hcp => hmode ((hin name).mp hcp))] at hi1
      rw [hi1]
      exact ⟨rfl, fun heq => absurd heq hmode, fun _ => rfl⟩
  · obtain ⟨mem2, hrun, h⟩ := heff false true mem
    refine ⟨mem2, hrun, ?_⟩
    intro i name hi
    have hi1 := h i name hi
    by_cases hmode : e.getTensorIOMode name = TensorIOMode.kINPUT
    · rw [if_neg (fun hcp => (hout name).mp hcp hmode)] at hi1
      rw [hi1]
      exact ⟨rfl, fun hne => absurd hmode hne, fun _ => rfl⟩
    · rw [if_pos ((hout name).mpr hmode)] at hi1
      rw [hi1]
      exact ⟨rfl, fun _ => rfl, fun heq => absurd heq hmode⟩
  · intro copyInput
    obtain ⟨mem1, hrun1, h1⟩ := heff copyInput false mem
    obtain ⟨mem2, hrun2, h2⟩ := heff copyInput true mem1
    refine ⟨mem1, mem2, hrun1, hrun2, ?_⟩
    intro i name hi hlen
    rw [h2 i name hi, h1 i name hi]
    by_cases hcp : bm.copies copyInput name = true
    · simp only [if_pos hcp, PairBytes.transfer, Bool.false_eq_true, if_false, if_true]
      exact roundtrip_bytes _ _ _ hlen
    · simp only [if_neg hcp]

/-- Witness of C7 on the MNIST manager with host bytes 1 and device bytes 0:
`copyInputToDevice` fills the device buffer of `Input3` (pair 0) with the 3136
host bytes and leaves the device buffer of the output (pair 1) as it was. -/
theorem copy_frame_witness :
    ∃ mem1 : Memory,
      mnistManager.copyInputToDevice okCuda mnistManager.mNames mnistMemory
        = some (mnistManager, mem1) ∧
      (mem1 0).device = List.replicate 3136 1 ∧ (mem1 0).host = List.replicate 3136 1 ∧
      (mem1 1).device = List.replicate 40 0 ∧ (mem1 1).host = List.replicate 40 1 := by
  obtain ⟨mem1, hrun, h⟩ :=
    (copy_frame bumpAlloc bumpAlloc mnistEngine 0 none World.init mnistWorld mnistManager
      mnistManager_constructed (by decide) okCuda (fun _ _ _ => rfl) mnistManager.mNames
      (List.Perm.refl _) mnistMemory).1
  obtain ⟨a0, b0, -⟩ := h 0 "Input3" rfl
  obtain ⟨a1, -, c1⟩ := h 1 "Plus214_Output_0" rfl
  have hm0 : mnistMemory 0 =
      { device := List.replicate 3136 0, host := List.replicate 3136 1 } := rfl
  have hm1 : mnistMemory 1 =
      { device := List.replicate 40 0, host := List.replicate 40 1 } := rfl
  refine ⟨mem1, hrun, ?_, ?_, ?_, ?_⟩
  · rw [b0 (by decide)]
    have hnb : (mnistManager.managed 0).hostBuffer.nbBytes = 3136 := by decide
    rw [hnb, hm0]
    simp only [List.take_replicate, List.drop_replicate, Nat.min_self, Nat.sub_self,
      List.replicate_zero, List.append_nil]
  · rw [a0, hm0]
  · rw [c1 (by decide), hm1]
  · rw [a1, hm1]

/-! ### The classification head -/

theorem getD_mapped_front {α : Type} (g : α → α) (l : List α) (k : Nat) (d : α)
    (hk : k < l.length) :
    ((l.take k).map g ++ l.drop k).getD k d = l.getD k d := by
  rw [List.getD_eq_getElem?_getD, List.getD_eq_getElem?_getD]
  rw [List.getElem?_append_right (by simp [Nat.le_of_lt hk])]
  simp [Nat.min_eq_left (Nat.le_of_lt hk)]

theorem set_mapped_front {α : Type} (g : α → α) (l : List α) (k : Nat) (d : α)
    (hk : k < l.length) :
    ((l.take k).map g ++ l.drop k).set k (g (l.getD k d)) =
      (l.take (k + 1)).map g ++ l.drop (k + 1) := by
  apply List.ext_getElem?
  intro j
  rw [List.getElem?_set]
  have hlen : ((l.take k).map g ++ l.drop k).length = l.length := by
    simp
    omega
  rw [hlen]
  rw [List.getD_eq_getElem _ _ hk]
  by_cases hjk : k = j
  · subst hjk
    rw [if_pos rfl, if_pos hk]
    rw [List.getElem?_append_left (by simp; omega)]
    simp [List.getElem?_take, hk]
  · rw [if_neg hjk]
    by_cases hlt : j < k
    · rw [List.getElem?_append_left (by simp; omega),
        List.getElem?_append_left (by simp; omega)]
      simp only [List.getElem?_map, List.getElem?_take]
      rw [if_pos hlt, if_pos (by omega)]
    · have hgt : k < j := by omega
      rw [List.getElem?_append_right (by simp; omega),
        List.getElem?_append_right (by simp; omega)]
      simp only [List.length_map, List.length_take, List.getElem?_drop]
      congr 1
      omega

theorem expLoop_steps {α : Type} [LinearOrder α] (ops : FloatOps α) (l : List α) (z : α)
    (n0 : Nat) :
    ∀ k : Nat, k ≤ l.length →
      (List.range k).foldl (Inference.expStep ops)
          { output := l, sum := ops.zero, val := z, idx := n0 } =
        { output := (l.take k).map ops.exp ++ l.drop k,
          sum := ((l.take k).map ops.exp).foldl ops.add ops.zero,
          val := z, idx := n0 } := by
  intro k
  induction k with
  | zero => intro _; simp
  | succ k ih =>
    intro hk
    have hk1 : k < l.length := by omega
    rw [List.range_succ, List.foldl_append, ih (by omega)]
    simp only [List.foldl_cons, List.foldl_nil, Inference.expStep]
    rw [getD_mapped_front ops.exp l k ops.zero hk1,
      set_mapped_front ops.exp l k ops.zero hk1]
    congr 1
    rw [List.take_succ, List.getElem?_eq_getElem hk1, List.getD_eq_getElem _ _ hk1]
    simp only [Option.toList_some, List.map_append, List.map_cons, List.map_nil,
      List.foldl_append, List.foldl_cons, List.foldl_nil]

theorem maxLoop_steps {α : Type} [LinearOrder α] (ops : FloatOps α) (l : List α) (s : α)
    (hnn : ∀ j : Nat, j < l.length → ops.zero ≤ ops.div (l.getD j ops.zero) s) :
    ∀ k : Nat, k ≤ l.length →
      ((List.range k).foldl (Inference.maxStep ops)
          { output := l, sum := s, val := ops.zero, idx := 0 }).output =
        (l.take k).map (fun x => ops.div x s) ++ l.drop k ∧
      ((List.range k).foldl (Inference.maxStep ops)
          { output := l, sum := s, val := ops.zero, idx := 0 }).sum = s ∧
      (k = 0 →
        ((List.range k).foldl (Inference.maxStep ops)
          { output := l, sum := s, val := ops.zero, idx := 0 }).val = ops.zero ∧
        ((List.range k).foldl (Inference.maxStep ops)
          { output := l, sum := s, val := ops.zero, idx := 0 }).idx = 0) ∧
      (1 ≤ k →
        ((List.range k).foldl (Inference.maxStep ops)
          { output := l, sum := s, val := ops.zero, idx := 0 }).idx < k ∧
        ops.div (l.getD ((List.range k).foldl (Inference.maxStep ops)
          { output := l, sum := s, val := ops.zero, idx := 0 }).idx ops.zero) s =
          ((List.range k).foldl (Inference.maxStep ops)
            { output := l, sum := s, val := ops.zero, idx := 0 }).val ∧
        (∀ j : Nat, j < k → ops.div (l.getD j ops.zero) s ≤
          ((List.range k).foldl (Inference.maxStep ops)
            { output := l, sum := s, val := ops.zero, idx := 0 }).val) ∧
        (∀ j : Nat, ((List.range k).foldl (Inference.maxStep ops)
            { output := l, sum := s, val := ops.zero, idx := 0 }).idx < j → j < k →
          ops.div (l.getD j ops.zero) s <
            ((List.range k).foldl (Inference.maxStep ops)
              { output := l, sum := s, val := ops.zero, idx := 0 }).val)) := by
  intro k
  induction k with
  | zero =>
    intro _
    refine ⟨by simp, rfl, fun _ => ⟨rfl, rfl⟩, fun h => absurd h (by omega)⟩
  | succ k ih =>
    intro hk
    have hk1 : k < l.length := by omega
    obtain ⟨hout, hsum, hzero, hpos⟩ := ih (by omega)
    rw [List.range_succ, List.foldl_append]
    simp only [List.foldl_cons, List.foldl_nil]
    generalize (List.range k).foldl (Inference.maxStep ops)
      { output := l, sum := s, val := ops.zero, idx := 0 } = st at hout hsum hzero hpos
    have hx : ops.div (st.output.getD k ops.zero) st.sum = ops.div (l.getD k ops.zero) s := by
      rw [hout, hsum, getD_mapped_front _ l k ops.zero hk1]
    simp only [Inference.maxStep, hx]
    refine ⟨?_, hsum, fun h => absurd h (by omega), fun _ => ?_⟩
    · rw [hout]
      exact set_mapped_front (fun x => ops.div x s) l k ops.zero hk1
    · rcases Nat.eq_zero_or_pos k with h0 | h1
      · obtain ⟨hv0, -⟩ := hzero h0
        subst h0
        have hge : st.val ≤ ops.div (l.getD 0 ops.zero) s := by
          rw [hv0]
          exact hnn 0 hk1
        rw [max_eq_right hge, if_pos rfl]
        refine ⟨by omega, rfl, ?_, fun j h1 h2 => absurd h2 (by omega)⟩
        intro j hj
        have : j = 0 := by omega
        rw [this]
      · obtain ⟨hidx, hv, hle, hlater⟩ := hpos h1
        by_cases hge : st.val ≤ ops.div (l.getD k ops.zero) s
        · rw [max_eq_right hge, if_pos rfl]
          refine ⟨by omega, rfl, ?_, fun j h1 h2 => absurd h2 (by omega)⟩
          intro j hj
          rcases Nat.lt_succ_iff_lt_or_eq.mp hj with hlt | heq
          · exact le_trans (hle j hlt) hge
          · rw [heq]
        · have hlt : ops.div (l.getD k ops.zero) s < st.val := lt_of_not_ge hge
          have hne : ¬ (st.val = ops.div (l.getD k ops.zero) s) := fun h => by
            rw [h] at hlt
            exact lt_irrefl _ hlt
          rw [max_eq_left (le_of_lt hlt), if_neg hne]
          refine ⟨by omega, hv, ?_, ?_⟩
          · intro j hj
            rcases Nat.lt_succ_iff_lt_or_eq.mp hj with h1 | h2
            · exact hle j h1
            · rw [h2]; exact le_of_lt hlt
          · intro j h1 h2
            rcases Nat.lt_succ_iff_lt_or_eq.mp h2 with h3 | h4
            · exact hlater j h1 h3
            · rw [h4]; exact hlt

theorem verifyOutputRun_spec {α : Type} [LinearOrder α] (ops : FloatOps α) (logits : List α)
    (hne : logits ≠ []) (hnn : ∀ x ∈ normalized ops logits, ops.zero ≤ x) :
    (Inference.verifyOutputRun ops (logits.length : Int) logits).output = normalized ops logits ∧
    (Inference.verifyOutputRun ops (logits.length : Int) logits).idx < logits.length ∧
    ∃ m : α,
      (normalized ops logits)[(Inference.verifyOutputRun ops (logits.length : Int) logits).idx]?
        = some m ∧
      (∀ y ∈ normalized ops logits, y ≤ m) ∧
      (∀ (j : Nat) (y : α),
        (Inference.verifyOutputRun ops (logits.length : Int) logits).idx < j →
        (normalized ops logits)[j]? = some y → y < m) := by
  have hlen : 1 ≤ logits.length := by
    cases logits with
    | nil => exact absurd rfl hne
    | cons a t => simp
  have hnorm : ∀ j : Nat, j < logits.length →
      (normalized ops logits)[j]? =
        some (ops.div ((logits.map ops.exp).getD j ops.zero) (expSum ops logits)) := by
    intro j hj
    unfold normalized
    rw [List.getElem?_map, List.getElem?_eq_getElem hj,
      List.getD_eq_getElem _ _ (by simpa using hj)]
    simp
  have hnn2 : ∀ j : Nat, j < (logits.map ops.exp).length →
      ops.zero ≤ ops.div ((logits.map ops.exp).getD j ops.zero) (expSum ops logits) := by
    intro j hj
    have hj2 : j < logits.length := by simpa using hj
    exact hnn _ (List.mem_iff_getElem?.mpr ⟨j, hnorm j hj2⟩)
  have h1 := expLoop_steps ops logits ops.zero 0 logits.length (le_refl _)
  simp only [List.take_length, List.drop_length, List.append_nil] at h1
  have h2 := maxLoop_steps ops (logits.map ops.exp) (expSum ops logits) hnn2
    (logits.map ops.exp).length (le_refl _)
  simp only [List.take_length, List.drop_length, List.append_nil] at h2
  simp only [List.length_map, List.map_map] at h2
  have hrun : Inference.verifyOutputRun ops (logits.length : Int) logits =
      (List.range logits.length).foldl (Inference.maxStep ops)
        { output := logits.map ops.exp, sum := expSum ops logits, val := ops.zero, idx := 0 } := by
    unfold Inference.verifyOutputRun
    simp only [Int.toNat_ofNat]
    rw [h1]
    rfl
  rw [hrun]
  generalize (List.range logits.length).foldl (Inference.maxStep ops)
    { output := logits.map ops.exp, sum := expSum ops logits, val := ops.zero, idx := 0 }
    = st at h2
  obtain ⟨hout, -, -, hpos⟩ := h2
  obtain ⟨hidx, hv, hle, hlater⟩ := hpos hlen
  refine ⟨?_, hidx, st.val, ?_, ?_, ?_⟩
  · rw [hout]
    rfl
  · rw [hnorm _ hidx, hv]
  · intro y hy
    obtain ⟨j, hj⟩ := List.mem_iff_getElem?.mp hy
    have hjl : j < logits.length := by
      obtain ⟨h, -⟩ := List.getElem?_eq_some.mp hj
      simpa [normalized] using h
    rw [hnorm j hjl] at hj
    rw [← Option.some.inj hj]
    exact hle j hjl
  · intro j y hlt hj
    have hjl : j < logits.length := by
      obtain ⟨h, -⟩ := List.getElem?_eq_some.mp hj
      simpa [normalized] using h
    rw [hnorm j hjl] at hj
    rw [← Option.some.inj hj]
    exact hlater j hlt hjl

/-- C8. For a non-empty logits vector of length `outputSize` whose normalized
values are not below `0.0F` (exponentials are positive and finite), `verifyOutput`
leaves the normalized (softmax) values in the buffer and returns an index below
`outputSize` at which the normalized value is the maximum of all of them, while
every later index holds a strictly smaller value: the greatest index of the
maximum, so the last of tied maxima. This holds for every ordered carrier and
every `exp`, `+` and `/` on it. With real arithmetic and the real exponential,
the logits `[0.2, 0.5, 0.5, 0.1]` give 2. -/
theorem verifyOutput_last_max :
    (∀ (α : Type) [LinearOrder α] (ops : FloatOps α) (logits : List α),
      logits ≠ [] → (∀ x ∈ normalized ops logits, ops.zero ≤ x) →
      (Inference.verifyOutputRun ops (logits.length : Int) logits).output
        = normalized ops logits ∧
      Inference.verifyOutput ops (logits.length : Int) logits < logits.length ∧
      ∃ m : α,
        (normalized ops logits)[Inference.verifyOutput ops (logits.length : Int) logits]?
          = some m ∧
        (∀ y ∈ normalized ops logits, y ≤ m) ∧
        (∀ (j : Nat) (y : α),
          Inference.verifyOutput ops (logits.length : Int) logits < j →
          (normalized ops logits)[j]? = some y → y < m)) ∧
    Inference.verifyOutput
      ({ zero := 0, exp := Real.exp, add := fun a b => a + b, div := fun a b => a / b } :
        FloatOps ℝ) 4 [0.2, 0.5, 0.5, 0.1] = 2 := by
  refine ⟨fun α _ ops logits hne hnn => verifyOutputRun_spec ops logits hne hnn, ?_⟩
  set ops : FloatOps ℝ :=
    { zero := 0, exp := Real.exp, add := fun a b => a + b, div := fun a b => a / b } with hops
  set S : ℝ := expSum ops [0.2, 0.5, 0.5, 0.1] with hS
  have hSpos : 0 < S := by
    have : S = 0 + Real.exp 0.2 + Real.exp 0.5 + Real.exp 0.5 + Real.exp 0.1 := rfl
    rw [this]
    positivity
  have hnorm : normalized ops [0.2, 0.5, 0.5, 0.1] =
      [Real.exp 0.2 / S, Real.exp 0.5 / S, Real.exp 0.5 / S, Real.exp 0.1 / S] := rfl
  have hnn : ∀ x ∈ normalized ops [0.2, 0.5, 0.5, 0.1], ops.zero ≤ x := by
    intro x hx
    rw [hnorm] at hx
    simp only [List.mem_cons, List.mem_nil_iff, or_false] at hx
    have h0 : ops.zero = 0 := rfl
    rw [h0]
    rcases hx with h | h | h | h <;> rw [h] <;> positivity
  obtain ⟨-, hlt, m, hm, hmax, hlater⟩ :=
    verifyOutputRun_spec ops [0.2, 0.5, 0.5, 0.1] (by simp) hnn
  have hcast : ((([0.2, 0.5, 0.5, 0.1] : List ℝ).length : Nat) : Int) = 4 := rfl
  rw [hcast] at hlt hm hlater
  change Inference.verifyOutput ops 4 [0.2, 0.5, 0.5, 0.1] < 4 at hlt
  change (normalized ops [0.2, 0.5, 0.5, 0.1])[Inference.verifyOutput ops 4
    [0.2, 0.5, 0.5, 0.1]]? = some m at hm
  change ∀ (j : Nat) (y : ℝ), Inference.verifyOutput ops 4 [0.2, 0.5, 0.5, 0.1] < j →
    (normalized ops [0.2, 0.5, 0.5, 0.1])[j]? = some y → y < m at hlater
  have hbig : Real.exp 0.5 / S ∈ normalized ops [0.2, 0.5, 0.5, 0.1] := by
    rw [hnorm]; simp
  have hle := hmax _ hbig
  have h25 : Real.exp 0.2 / S < Real.exp 0.5 / S :=
    div_lt_div_of_pos_right (Real.exp_lt_exp.mpr (by norm_num)) hSpos
  have h15 : Real.exp 0.1 / S < Real.exp 0.5 / S :=
    div_lt_div_of_pos_right (Real.exp_lt_exp.mpr (by norm_num)) hSpos
  generalize Inference.verifyOutput ops 4 [0.2, 0.5, 0.5, 0.1] = idx at hlt hm hlater
  rw [hnorm] at hm hlater
  interval_cases idx
  · simp only [List.getElem?_cons_zero, Option.some.injEq] at hm
    rw [← hm] at hle
    exact absurd hle (not_le.mpr h25)
  · simp only [List.getElem?_cons_succ, List.getElem?_cons_zero, Option.some.injEq] at hm
    have := hlater 2 (Real.exp 0.5 / S) (by norm_num) (by simp)
    rw [← hm] at this
    exact absurd this (lt_irrefl _)
  · rfl
  · simp only [List.getElem?_cons_succ, List.getElem?_cons_zero, Option.some.injEq] at hm
    rw [← hm] at hle
    exact absurd hle (not_le.mpr h15)

/-- Witness of C8 on the rational stand-in operations and the logits
`[1/5, 1/2, 1/2, 1/10]`: the normalized values are `124/585, 35/117, 35/117,
37/195` and the index returned is below 4. -/
theorem verifyOutput_last_max_witness :
    (Inference.verifyOutputRun ratOps 4 [1/5, 1/2, 1/2, 1/10]).output =
      normalized ratOps [1/5, 1/2, 1/2, 1/10] ∧
    Inference.verifyOutput ratOps 4 [1/5, 1/2, 1/2, 1/10] < 4 := by
  have hnn : ∀ x ∈ normalized ratOps [1/5, 1/2, 1/2, 1/10], ratOps.zero ≤ x := by
    intro x hx
    simp only [normalized, expSum, ratOps, List.map_cons, List.map_nil, List.foldl_cons,
      List.foldl_nil, List.mem_cons, List.mem_nil_iff, or_false] at hx
    have h0 : ratOps.zero = 0 := rfl
    rw [h0]
    rcases hx with h | h | h | h <;> rw [h] <;> norm_num
  have h := verifyOutput_last_max.1 ℚ ratOps [1/5, 1/2, 1/2, 1/10] (by simp) hnn
  exact ⟨h.1, h.2.1⟩

/-! ### The value that `Infer` returns on failure -/

theorem verifyOutput_class_zero :
    Inference.verifyOutput ratOps 10 [3, 0, 0, 0, 0, 0, 0, 0, 0, 0] = 0 := by
  simp [Inference.verifyOutput, Inference.verifyOutputRun, List.range_succ,
    Inference.expStep, Inference.maxStep, ratOps]
  norm_num

/-- C9, the behaviour of the code. When no execution context can be created, and
when the forward pass reports failure, `Infer` executes `return false` in a
function of return type `int`: the caller receives 0. On the built MNIST pipeline
(ten classes) that is the value of a successful run that classifies the input as
digit 0, so the failure is not distinguishable from a class index in
`[0, outputSize)`. -/
theorem infer_failure_returns_zero :
    (∀ (α : Type) [LinearOrder α] (p : Inference) (env : InferEnv α) (inputData : List UInt8),
      (BufferManager.construct env.aDev env.aHost p.mEngine 0 none env.world).isSome = true →
      env.createExecutionContext = false →
      p.Infer env inputData = Outcome.returned 0) ∧
    (∀ (α : Type) [LinearOrder α] (p : Inference) (env : InferEnv α) (inputData : List UInt8)
        (bm bm1 : BufferManager) (w1 : World) (mem1 : Memory),
      BufferManager.construct env.aDev env.aHost p.mEngine 0 none env.world = some (bm, w1) →
      env.createExecutionContext = true →
      p.mParams.inputTensorNames.length = 1 →
      bm.copyInputToDevice env.cuda env.order env.mem = some (bm1, mem1) →
      env.executeV2 inputData = none →
      p.Infer env inputData = Outcome.returned 0) ∧
    mnistPipeline.Infer noContextEnv (List.replicate 784 0) = Outcome.returned 0 ∧
    mnistPipeline.Infer failedPassEnv (List.replicate 784 0) = Outcome.returned 0 ∧
    mnistPipeline.Infer okEnv (List.replicate 784 0) = Outcome.returned 0 ∧
    (0 : Int) < mnistPipeline.mOutputDims.getD 1 0 := by
  refine ⟨?_, ?_, rfl, rfl, ?_, by decide⟩
  · intro α _ p env inputData hc hctx
    obtain ⟨r, hr⟩ := Option.isSome_iff_exists.mp hc
    obtain ⟨bm, w'⟩ := r
    simp [Inference.Infer, hr, hctx]
  · intro α _ p env inputData bm bm1 w1 mem1 hc hctx hnames hcopy hexec
    simp [Inference.Infer, hc, hctx, hnames, hcopy, hexec]
  · have h : mnistPipeline.Infer okEnv (List.replicate 784 0) =
        Outcome.returned
          (Inference.verifyOutput ratOps 10 [3, 0, 0, 0, 0, 0, 0, 0, 0, 0]) := rfl
    rw [h, verifyOutput_class_zero]
    rfl

/-! ### Capacity and allocation size in reachable states -/

theorem GenericBuffer.resize_some (a : AllocFunc) (b b' : GenericBuffer) (n : Nat)
    (h h' : Heap) (hr : b.resize a n h = some (b', h')) :
    (b.mCapacity < n ∧ ∃ p : Ptr,
      b' = { mSize := n, mCapacity := n, mType := b.mType, mBuffer := p } ∧
      h' = h ++ [MemEvent.free b.mBuffer,
        MemEvent.alloc (mulSizeT n (getElementSize b.mType)) (some p)]) ∨
    (n ≤ b.mCapacity ∧ b' = { b with mSize := n } ∧ h' = h) := by
  unfold GenericBuffer.resize at hr
  simp only at hr
  split_ifs at hr with hc
  · left
    refine ⟨hc, ?_⟩
    simp only [allocFn, freeFn, GenericBuffer.nbBytes, GenericBuffer.size] at hr
    cases hq : a (h ++ [MemEvent.free b.mBuffer]) (mulSizeT n (getElementSize b.mType)) with
    | none => simp [hq] at hr
    | some p =>
      simp only [hq, Option.some.injEq, Prod.mk.injEq] at hr
      refine ⟨p, hr.1.symm, ?_⟩
      rw [← hr.2]
      simp
  · right
    simp only [Option.some.injEq, Prod.mk.injEq] at hr
    exact ⟨Nat.le_of_not_lt hc, hr.1.symm, hr.2.symm⟩

theorem reachable_inv (a : AllocFunc) (b : GenericBuffer) (k : Nat) (hr : Reachable a b k) :
    b.mSize ≤ b.mCapacity ∧ k = mulSizeT b.mCapacity (getElementSize b.mType) := by
  induction hr with
  | empty t => exact ⟨le_refl _, by simp [GenericBuffer.empty, mulSizeT]⟩
  | construct n t h h' b _ hc =>
    obtain ⟨h1, h2, h3, -, h5⟩ := GenericBuffer.construct_some a n t h h' b hc
    refine ⟨by omega, ?_⟩
    rw [h5, h2, h3]
    simp [heldBytes]
  | resize b b' k n h h' _ _ hres ih =>
    obtain ⟨ih1, ih2⟩ := ih
    rcases GenericBuffer.resize_some a b b' n h h' hres with ⟨_, p, hb, hh⟩ | ⟨hle, hb, hh⟩
    · subst hb
      refine ⟨le_refl _, ?_⟩
      rw [hh]
      simp [heldBytes]
    · subst hb
      refine ⟨hle, ?_⟩
      rw [hh]
      simpa [heldBytes] using ih2
  | moveConstructDst b k _ ih => exact ih
  | moveConstructSrc b k _ _ =>
    exact ⟨le_refl _, by simp [GenericBuffer.moveConstruct, mulSizeT]⟩
  | moveAssignDst self buf k1 k2 h _ _ _ ih2 => exact ih2
  | moveAssignSrc self buf k1 k2 h _ _ _ _ =>
    exact ⟨le_refl _, by simp [GenericBuffer.moveAssign, mulSizeT]⟩

/-- C10, as amended. In every state of a `GenericBuffer` reachable from default
construction or `GenericBuffer(size, type)` through successful `resize` calls and
moves, the tracked capacity is at least the element count, and the current
allocation was requested with `capacity * getElementSize(type)` bytes modulo
`2 ^ 64`; so whenever `capacity * getElementSize(type)` fits `size_t`, the
allocation has at least `elementCount * getElementSize(type)` bytes, which then
is `nbBytes()`. -/
theorem reachable_capacity_invariant (a : AllocFunc) (b : GenericBuffer) (k : Nat)
    (hr : Reachable a b k) :
    b.mSize ≤ b.mCapacity ∧
    k = (b.mCapacity * getElementSize b.mType) % 2 ^ 64 ∧
    (b.mCapacity * getElementSize b.mType < 2 ^ 64 →
      b.mSize * getElementSize b.mType ≤ k ∧
      b.nbBytes = b.mSize * getElementSize b.mType) := by
  obtain ⟨h1, h2⟩ := reachable_inv a b k hr
  refine ⟨h1, h2, ?_⟩
  intro hfit
  have hk : k = b.mCapacity * getElementSize b.mType := by
    rw [h2]
    exact Nat.mod_eq_of_lt hfit
  have hle : b.mSize * getElementSize b.mType ≤ b.mCapacity * getElementSize b.mType :=
    Nat.mul_le_mul_right _ h1
  refine ⟨by omega, ?_⟩
  simp only [GenericBuffer.nbBytes, GenericBuffer.size, mulSizeT, SIZE_MOD]
  exact Nat.mod_eq_of_lt (by omega)

theorem floatBuf6_reachable :
    Reachable bumpAlloc
      { mSize := 6, mCapacity := 6, mType := DataType.kFLOAT, mBuffer := 12288 } 24 := by
  have h0 : Reachable bumpAlloc floatBuf4 16 :=
    Reachable.construct 4 DataType.kFLOAT [] [MemEvent.alloc 16 (some 4096)] floatBuf4
      (by norm_num) rfl
  exact Reachable.resize floatBuf4
    { mSize := 6, mCapacity := 6, mType := DataType.kFLOAT, mBuffer := 12288 } 16 6
    [MemEvent.alloc 16 (some 4096)]
    [MemEvent.alloc 16 (some 4096), MemEvent.free 4096, MemEvent.alloc 24 (some 12288)]
    h0 (by norm_num) rfl

theorem wrappedBuf_reachable : Reachable bumpAlloc wrappedBuf 8 := by
  have h0 : Reachable bumpAlloc
      { mSize := 2 ^ 61 + 1, mCapacity := 2 ^ 61 + 1, mType := DataType.kINT64,
        mBuffer := 4096 } 8 :=
    Reachable.construct (2 ^ 61 + 1) DataType.kINT64 [] [MemEvent.alloc 8 (some 4096)] _
      (by norm_num) rfl
  exact Reachable.resize _ wrappedBuf 8 2 [MemEvent.alloc 8 (some 4096)]
    [MemEvent.alloc 8 (some 4096)] h0 (by norm_num) rfl

/-- Witness of the amended C10: a float buffer constructed with 4 elements and
resized to 6 holds an allocation of 24 bytes for its 6 elements. -/
theorem reachable_capacity_invariant_witness :
    (6 : Nat) ≤ 6 ∧ (24 : Nat) = (6 * getElementSize DataType.kFLOAT) % 2 ^ 64 ∧
    6 * getElementSize DataType.kFLOAT ≤ 24 := by
  have h := reachable_capacity_invariant bumpAlloc _ 24 floatBuf6_reachable
  exact ⟨h.1, h.2.1, (h.2.2 (by decide)).1⟩

/-- Counterexample to C10 as stated: `GenericBuffer(2 ^ 61 + 1, kINT64)` requests
`(2 ^ 61 + 1) * 8 mod 2 ^ 64 = 8` bytes and records a capacity of `2 ^ 61 + 1`
elements; after `resize(2)`, which keeps the allocation, the buffer holds 2
elements, `nbBytes()` is 16, and the allocation has 8 bytes, although the
capacity is not smaller than the element count. -/
theorem allocation_smaller_than_nbBytes :
    Reachable bumpAlloc wrappedBuf 8 ∧
    wrappedBuf.mSize ≤ wrappedBuf.mCapacity ∧
    wrappedBuf.mSize * getElementSize wrappedBuf.mType = 16 ∧
    wrappedBuf.nbBytes = 16 ∧
    ¬ (wrappedBuf.mSize * getElementSize wrappedBuf.mType ≤ 8) := by
  refine ⟨wrappedBuf_reachable, by decide, by decide, by decide, by decide⟩

/-! ### The pointer and the byte capacity -/

theorem GenericBuffer.resize_grow_alloc (a : AllocFunc) (b b' : GenericBuffer) (n : Nat)
    (h h' : Heap) (hr : b.resize a n h = some (b', h')) (hlt : b.mCapacity < n) :
    a (h ++ [MemEvent.free b.mBuffer]) (mulSizeT n (getElementSize b.mType)) = some b'.mBuffer ∧
    h' = h ++ [MemEvent.free b.mBuffer,
      MemEvent.alloc (mulSizeT n (getElementSize b.mType)) (some b'.mBuffer)] := by
  unfold GenericBuffer.resize at hr
  simp only [hlt, if_true, allocFn, freeFn, GenericBuffer.nbBytes, GenericBuffer.size] at hr
  cases hq : a (h ++ [MemEvent.free b.mBuffer]) (mulSizeT n (getElementSize b.mType)) with
  | none => simp [hq] at hr
  | some p =>
    simp only [hq, Option.some.injEq, Prod.mk.injEq] at hr
    obtain ⟨hb, hh⟩ := hr
    subst hb
    refine ⟨rfl, ?_⟩
    rw [← hh]
    simp

theorem hostAllocator_nonnull (malloc : Heap → Nat → Ptr) (h : Heap) (n : Nat) (p : Ptr)
    (hp : HostAllocator malloc h n = some p) : p ≠ nullptr := by
  unfold HostAllocator at hp
  by_cases hm : malloc h n ≠ nullptr
  · rw [if_pos hm] at hp
    rw [← Option.some.inj hp]
    exact hm
  · rw [if_neg hm] at hp
    exact absurd hp (by simp)

theorem reachable_nonnull (a : AllocFunc)
    (hpos : ∀ (h : Heap) (n : Nat) (p : Ptr), 0 < n → a h n = some p → p ≠ nullptr)
    (b : GenericBuffer) (k : Nat) (hr : Reachable a b k) :
    0 < k → b.mBuffer ≠ nullptr := by
  induction hr with
  | empty t => intro hk; exact absurd hk (by omega)
  | construct n t h h' b _ hc =>
    obtain ⟨-, -, -, h4, h5⟩ := GenericBuffer.construct_some a n t h h' b hc
    rw [h5]
    simp only [List.drop_left, heldBytes]
    intro hk
    exact hpos _ _ _ hk h4
  | resize b b' k n h h' _ _ hres ih =>
    rcases GenericBuffer.resize_some a b b' n h h' hres with ⟨hlt, -, -, -⟩ | ⟨-, hb, hh⟩
    · obtain ⟨h4, h5⟩ := GenericBuffer.resize_grow_alloc a b b' n h h' hres hlt
      rw [h5]
      simp only [List.drop_left, heldBytes]
      intro hk
      exact hpos _ _ _ hk h4
    · rw [hh, hb]
      simpa [heldBytes] using ih
  | moveConstructDst b k _ ih => exact ih
  | moveConstructSrc b k _ _ => intro hk; exact absurd hk (by omega)
  | moveAssignDst self buf k1 k2 h _ _ _ ih2 => exact ih2
  | moveAssignSrc self buf k1 k2 h _ _ _ _ => intro hk; exact absurd hk (by omega)

theorem reachable_null (a : AllocFunc)
    (hnn : ∀ (h : Heap) (n : Nat) (p : Ptr), a h n = some p → p ≠ nullptr)
    (b : GenericBuffer) (k : Nat) (hr : Reachable a b k) :
    b.mBuffer = nullptr → k = 0 ∧ b.mCapacity = 0 := by
  induction hr with
  | empty t => intro _; exact ⟨rfl, rfl⟩
  | construct n t h h' b _ hc =>
    obtain ⟨-, -, -, h4, -⟩ := GenericBuffer.construct_some a n t h h' b hc
    intro hnull
    exact absurd hnull (hnn _ _ _ h4)
  | resize b b' k n h h' _ _ hres ih =>
    rcases GenericBuffer.resize_some a b b' n h h' hres with ⟨hlt, -, -, -⟩ | ⟨-, hb, hh⟩
    · obtain ⟨h4, -⟩ := GenericBuffer.resize_grow_alloc a b b' n h h' hres hlt
      intro hnull
      exact absurd hnull (hnn _ _ _ h4)
    · rw [hh, hb]
      simpa [heldBytes] using ih
  | moveConstructDst b k _ ih => exact ih
  | moveConstructSrc b k _ _ => intro _; exact ⟨rfl, rfl⟩
  | moveAssignDst self buf k1 k2 h _ _ _ ih2 => exact ih2
  | moveAssignSrc self buf k1 k2 h _ _ _ _ => intro _; exact ⟨rfl, rfl⟩

theorem floatBuf4_host_reachable : Reachable (HostAllocator bumpMalloc) floatBuf4 16 :=
  Reachable.construct 4 DataType.kFLOAT [] [MemEvent.alloc 16 (some 4096)] floatBuf4
    (by norm_num) rfl

theorem zeroBuf_host_reachable : Reachable (HostAllocator bumpMalloc) zeroBuf 0 :=
  Reachable.construct 0 DataType.kFLOAT [] [MemEvent.alloc 0 (some 4096)] zeroBuf
    (by norm_num) rfl

/-- C11, as amended. In every state of a `GenericBuffer` reachable from default
construction or `GenericBuffer(size, type)` through successful `resize` calls and
moves, with an allocation strategy whose successful requests of more than 0 bytes
store a non-null pointer, the byte capacity (the bytes of the current allocation,
`capacity * getElementSize(type)` modulo `2 ^ 64`) is greater than 0 only if the
raw pointer is non-null. `HostAllocator` is such a strategy: it reports success
only for a non-null pointer, whatever the size; with a strategy of that kind a
null pointer also means a capacity of 0 elements. The converse direction of the
claim is not part of the statement. -/
theorem pointer_nonnull_of_capacity (a : AllocFunc)
    (hpos : ∀ (h : Heap) (n : Nat) (p : Ptr), 0 < n → a h n = some p → p ≠ nullptr)
    (b : GenericBuffer) (k : Nat) (hr : Reachable a b k) :
    k = (b.mCapacity * getElementSize b.mType) % 2 ^ 64 ∧
    (0 < k → b.mBuffer ≠ nullptr) ∧
    ((∀ (h : Heap) (n : Nat) (p : Ptr), a h n = some p → p ≠ nullptr) →
      b.mBuffer = nullptr → k = 0 ∧ b.mCapacity = 0) ∧
    (∀ (malloc : Heap → Nat → Ptr) (h : Heap) (n : Nat) (p : Ptr),
      HostAllocator malloc h n = some p → p ≠ nullptr) :=
  ⟨(reachable_inv a b k hr).2, reachable_nonnull a hpos b k hr,
    fun hnn => reachable_null a hnn b k hr, hostAllocator_nonnull⟩

/-- Witness of the amended C11: a host buffer of four floats holds 16 bytes at the
non-null address 4096. -/
theorem pointer_nonnull_of_capacity_witness :
    (16 : Nat) = (floatBuf4.mCapacity * getElementSize floatBuf4.mType) % 2 ^ 64 ∧
    floatBuf4.mBuffer ≠ nullptr := by
  have h := pointer_nonnull_of_capacity (HostAllocator bumpMalloc)
    (fun h n p _ hp => hostAllocator_nonnull bumpMalloc h n p hp) floatBuf4 16
    floatBuf4_host_reachable
  exact ⟨h.1, h.2.1 (by norm_num)⟩

/-- Counterexample to C11 as stated: with a `malloc` that returns a non-null
pointer for a request of 0 bytes, `GenericBuffer(0, kFLOAT)` on `HostAllocator`
succeeds and holds the non-null pointer 4096 while its byte capacity is 0. -/
theorem nonnull_pointer_zero_capacity :
    GenericBuffer.construct (HostAllocator bumpMalloc) 0 DataType.kFLOAT [] =
      some (zeroBuf, [MemEvent.alloc 0 (some 4096)]) ∧
    Reachable (HostAllocator bumpMalloc) zeroBuf 0 ∧
    zeroBuf.mBuffer ≠ nullptr ∧
    zeroBuf.mCapacity * getElementSize zeroBuf.mType = 0 ∧
    zeroBuf.nbBytes = 0 ∧
    ¬ (zeroBuf.mBuffer ≠ nullptr ↔ 0 < zeroBuf.mCapacity * getElementSize zeroBuf.mType) := by
  refine ⟨rfl, zeroBuf_host_reachable, by decide, by decide, by decide, by decide⟩

/-! ### Moves -/

/-- C12, the behaviour of the code. Move construction gives the new object the
source's element count, capacity, type and pointer and leaves the source with
count 0, capacity 0, type `kFLOAT` and a null pointer. Move assignment (source
distinct from destination) frees the destination's previous pointer exactly
once, gives the destination the source's four fields and resets the source's
count, capacity and pointer, but leaves the source's element type as it was:
after move-assigning from a buffer of type `kINT64` the source still has type
`kINT64`, not `kFLOAT`. -/
theorem moveAssign_keeps_source_type :
    (∀ buf : GenericBuffer,
      (GenericBuffer.moveConstruct buf).1 = buf ∧
      (GenericBuffer.moveConstruct buf).2 =
        { mSize := 0, mCapacity := 0, mType := DataType.kFLOAT, mBuffer := nullptr }) ∧
    (∀ (self buf : GenericBuffer) (h : Heap),
      (GenericBuffer.moveAssign self buf h).1 = buf ∧
      (GenericBuffer.moveAssign self buf h).2.1 =
        { mSize := 0, mCapacity := 0, mType := buf.mType, mBuffer := nullptr } ∧
      (GenericBuffer.moveAssign self buf h).2.2 = h ++ [MemEvent.free self.mBuffer]) ∧
    (GenericBuffer.moveAssign floatBuf4 int64Buf3 []).2.1 =
      { mSize := 0, mCapacity := 0, mType := DataType.kINT64, mBuffer := nullptr } ∧
    (GenericBuffer.moveAssign floatBuf4 int64Buf3 []).2.1.mType ≠ DataType.kFLOAT ∧
    (GenericBuffer.moveConstruct int64Buf3).2.mType = DataType.kFLOAT := by
  refine ⟨fun buf => ⟨rfl, rfl⟩, fun self buf h => ⟨rfl, rfl, rfl⟩, rfl, by decide, rfl⟩

/-! ### The structural assertion of `Infer` -/

theorem ancestorPath_zero (p : String) : ancestorPath 0 p = p := by
  simp [ancestorPath, String.join]

theorem ancestorPath_succ (k : Nat) (p : String) :
    ancestorPath (k + 1) p = ancestorPath k ("../" ++ p) := by
  unfold ancestorPath String.join
  rw [List.replicate_succ', List.foldl_append]
  simp only [List.foldl_cons, List.foldl_nil]
  rw [String.append_assoc]

theorem probeLoop_none (fileExists : String → Bool) (n : Nat) :
    ∀ p : String, (∀ k : Nat, k < n → fileExists (ancestorPath k p) = false) →
      probeLoop fileExists n p = (false, ancestorPath n p) := by
  induction n with
  | zero => intro p _; simp [probeLoop, ancestorPath_zero]
  | succ n ih =>
    intro p hall
    have h0 : fileExists p = false := by
      have := hall 0 (by omega)
      rwa [ancestorPath_zero] at this
    simp only [probeLoop, h0, Bool.false_eq_true, if_false]
    rw [ih ("../" ++ p), ancestorPath_succ]
    intro k hk
    rw [← ancestorPath_succ]
    exact hall (k + 1) (by omega)

theorem probeLoop_first (fileExists : String → Bool) (n : Nat) :
    ∀ (p : String) (k : Nat), k < n → fileExists (ancestorPath k p) = true →
      (∀ j : Nat, j < k → fileExists (ancestorPath j p) = false) →
      probeLoop fileExists n p = (true, ancestorPath k p) := by
  induction n with
  | zero => intro p k hk; omega
  | succ n ih =>
    intro p k hk hex hbefore
    cases k with
    | zero =>
      rw [ancestorPath_zero] at hex
      simp [probeLoop, hex, ancestorPath_zero]
    | succ k =>
      have h0 : fileExists p = false := by
        have := hbefore 0 (by omega)
        rwa [ancestorPath_zero] at this
      simp only [probeLoop, h0, Bool.false_eq_true, if_false]
      rw [ancestorPath_succ]
      apply ih ("../" ++ p) k (by omega)
      · rw [← ancestorPath_succ]; exact hex
      · intro j hj
        rw [← ancestorPath_succ]
        exact hbefore (j + 1) (by omega)

theorem searchLoop_none (fileExists : String → Bool) (suffix : String) (dirs : List String)
    (hall : ∀ dir ∈ dirs, ∀ k : Nat, k < MAX_DEPTH →
      fileExists (ancestorPath k (joinPath dir suffix)) = false) :
    searchLoop fileExists suffix dirs = (false, "") := by
  induction dirs with
  | nil => rfl
  | cons dir rest ih =>
    have h1 := probeLoop_none fileExists MAX_DEPTH (joinPath dir suffix)
      (hall dir (List.mem_cons_self _ _))
    simp only [searchLoop, h1, Bool.false_eq_true, if_false]
    exact ih (fun d hd => hall d (List.mem_cons_of_mem _ hd))

theorem searchLoop_first (fileExists : String → Bool) (suffix : String)
    (before : List String) (dir : String) (after : List String) (k : Nat)
    (hbefore : ∀ d ∈ before, ∀ j : Nat, j < MAX_DEPTH →
      fileExists (ancestorPath j (joinPath d suffix)) = false)
    (hk : k < MAX_DEPTH)
    (hex : fileExists (ancestorPath k (joinPath dir suffix)) = true)
    (hlow : ∀ j : Nat, j < k → fileExists (ancestorPath j (joinPath dir suffix)) = false) :
    searchLoop fileExists suffix (before ++ dir :: after) =
      (true, ancestorPath k (joinPath dir suffix)) := by
  induction before with
  | nil =>
    have h1 := probeLoop_first fileExists MAX_DEPTH (joinPath dir suffix) k hk hex hlow
    simp [searchLoop, h1]
  | cons d rest ih =>
    have h1 := probeLoop_none fileExists MAX_DEPTH (joinPath d suffix)
      (hbefore d (List.mem_cons_self _ _))
    simp only [List.cons_append, searchLoop, h1, Bool.false_eq_true, if_false]
    exact ih (fun d' hd => hbefore d' (List.mem_cons_of_mem _ hd))

theorem locateFile_first (fileExists : String → Bool) (suffix : String)
    (before : List String) (dir : String) (after : List String) (k : Nat) (reportError : Bool)
    (hempty : fileExists "" = false)
    (hbefore : ∀ d ∈ before, ∀ j : Nat, j < MAX_DEPTH →
      fileExists (ancestorPath j (joinPath d suffix)) = false)
    (hk : k < MAX_DEPTH)
    (hex : fileExists (ancestorPath k (joinPath dir suffix)) = true)
    (hlow : ∀ j : Nat, j < k → fileExists (ancestorPath j (joinPath dir suffix)) = false) :
    locateFile fileExists suffix (before ++ dir :: after) reportError =
      some (ancestorPath k (joinPath dir suffix)) := by
  unfold locateFile
  rw [searchLoop_first fileExists suffix before dir after k hbefore hk hex hlow]
  have hne : ¬ (ancestorPath k (joinPath dir suffix)).isEmpty = true := by
    intro h
    rw [(String.isEmpty_iff _).mp h, hempty] at hex
    exact absurd hex (by decide)
  simp [hne]

theorem locateFile_none (fileExists : String → Bool) (suffix : String) (dirs : List String)
    (reportError : Bool)
    (hall : ∀ dir ∈ dirs, ∀ k : Nat, k < MAX_DEPTH →
      fileExists (ancestorPath k (joinPath dir suffix)) = false) :
    locateFile fileExists suffix dirs reportError = if reportError then none else some "" := by
  unfold locateFile
  rw [searchLoop_none fileExists suffix dirs hall]
  rfl

/-! ### Building the engine -/

open BuildStage in
/-- C14. With every external stage of `Build` an operation that may fail: `Build`
returns `true` exactly when the builder, the network, the configuration and the
parser are created, the model file is located and parsed, the network is
serialized, the runtime is created and the engine is deserialized; when a stage
fails, `Build` returns `false` and the stages run are those up to the failing
one, none after it; and whenever `Build` does not return `true` on a pipeline
whose engine is null, the engine is null afterwards. (A model file that cannot
be located ends the process inside `locateFile`, before the parse stage.) -/
theorem build_short_circuits (env : BuildEnv) (st : PipelineState) (params : ModelParams) :
    ((Inference.Build env st params).outcome = some true ↔
      env.createInferBuilder = true ∧ env.createNetworkV2 = true ∧
      env.createBuilderConfig = true ∧ env.createParser = true ∧
      (∃ path : String,
        locateFile env.fileExists params.onnxFileName params.dataDirs true = some path ∧
        env.parseFromFile path = true) ∧
      env.buildSerializedNetwork = true ∧ env.createInferRuntime = true ∧
      env.deserializeCudaEngine.isSome = true) ∧
    (env.createInferBuilder = false →
      (Inference.Build env st params).outcome = some false ∧
      (Inference.Build env st params).ran = [builder]) ∧
    (env.createInferBuilder = true → env.createNetworkV2 = false →
      (Inference.Build env st params).outcome = some false ∧
      (Inference.Build env st params).ran = [builder, network]) ∧
    (env.createInferBuilder = true → env.createNetworkV2 = true →
      env.createBuilderConfig = false →
      (Inference.Build env st params).outcome = some false ∧
      (Inference.Build env st params).ran = [builder, network, config]) ∧
    (env.createInferBuilder = true → env.createNetworkV2 = true →
      env.createBuilderConfig = true → env.createParser = false →
      (Inference.Build env st params).outcome = some false ∧
      (Inference.Build env st params).ran = [builder, network, config, parser]) ∧
    (∀ path : String, env.createInferBuilder = true → env.createNetworkV2 = true →
      env.createBuilderConfig = true → env.createParser = true →
      locateFile env.fileExists params.onnxFileName params.dataDirs true = some path →
      (env.parseFromFile path = false →
        (Inference.Build env st params).outcome = some false ∧
        (Inference.Build env st params).ran = [builder, network, config, parser, parse]) ∧
      (env.parseFromFile path = true → env.buildSerializedNetwork = false →
        (Inference.Build env st params).outcome = some false ∧
        (Inference.Build env st params).ran =
          [builder, network, config, parser, parse, serialize]) ∧
      (env.parseFromFile path = true → env.buildSerializedNetwork = true →
        env.createInferRuntime = false →
        (Inference.Build env st params).outcome = some false ∧
        (Inference.Build env st params).ran =
          [builder, network, config, parser, parse, serialize, runtime]) ∧
      (env.parseFromFile path = true → env.buildSerializedNetwork = true →
        env.createInferRuntime = true → env.deserializeCudaEngine = none →
        (Inference.Build env st params).outcome = some false ∧
        (Inference.Build env st params).ran =
          [builder, network, config, parser, parse, serialize, runtime, deserialize])) ∧
    ((Inference.Build env st params).outcome ≠ some true → st.mEngine = none →
      (Inference.Build env st params).state.mEngine = none) ∧
    ((Inference.Build env st params).outcome = some true →
      (Inference.Build env st params).state.mEngine = env.deserializeCudaEngine ∧
      (Inference.Build env st params).ran =
        [builder, network, config, parser, parse, serialize, runtime, deserialize]) := by
  unfold Inference.Build
  simp only
  cases h1 : env.createInferBuilder <;> cases h2 : env.createNetworkV2 <;>
    cases h3 : env.createBuilderConfig <;> cases h4 : env.createParser <;>
    simp
  cases hl : locateFile env.fileExists params.onnxFileName params.dataDirs true with
  | none => simp
  | some path =>
    cases h5 : env.parseFromFile path <;> cases h6 : env.buildSerializedNetwork <;>
      cases h7 : env.createInferRuntime <;> cases h8 : env.deserializeCudaEngine <;>
      simp [h5]

/-- Witness of C14: with the network serialization failing, `Build` on an unbuilt
pipeline returns `false` after six stages and leaves the engine null; with every
stage succeeding it returns `true`. -/
theorem build_short_circuits_witness :
    (Inference.Build noPlanBuildEnv PipelineState.unbuilt mnistParams).outcome = some false ∧
    (Inference.Build noPlanBuildEnv PipelineState.unbuilt mnistParams).ran =
      [BuildStage.builder, BuildStage.network, BuildStage.config, BuildStage.parser,
        BuildStage.parse, BuildStage.serialize] ∧
    (Inference.Build noPlanBuildEnv PipelineState.unbuilt mnistParams).state.mEngine = none ∧
    (Inference.Build okBuildEnv PipelineState.unbuilt mnistParams).outcome = some true := by
  have h := build_short_circuits noPlanBuildEnv PipelineState.unbuilt mnistParams
  have hk := build_short_circuits okBuildEnv PipelineState.unbuilt mnistParams
  have hloc : locateFile noPlanBuildEnv.fileExists mnistParams.onnxFileName
      mnistParams.dataDirs true = some "data/mnist/mnist.onnx" := by decide
  have h2 := (h.2.2.2.2.2.1 "data/mnist/mnist.onnx" rfl rfl rfl rfl hloc).2.1 rfl rfl
  refine ⟨h2.1, h2.2, h.2.2.2.2.2.2.1 (by rw [h2.1]; decide) rfl, ?_⟩
  exact hk.1.mpr ⟨rfl, rfl, rfl, rfl, ⟨"data/mnist/mnist.onnx", hloc, rfl⟩, rfl, rfl, rfl⟩

/-- C15, the behaviour of the code. `locateFile` probes, for each directory in
list order, the joined path with `k` copies of `../` in front for
`k = 0, ..., 9` only (`MAX_DEPTH = 10` probes: the current level and nine
ancestor levels) and returns the first path that exists; when none of these
exists it ends the process if `reportError` is set and returns the empty string
otherwise. The path with ten copies of `../` is built and never probed: a file
that exists only ten levels up is not found. For the directories
`["data/x/", "data/y/"]` and a file that exists only at `../../data/y/file` the
result is `../../data/y/file`. -/
theorem locateFile_stops_before_tenth_ancestor :
    MAX_DEPTH = 10 ∧
    (∀ (fileExists : String → Bool) (suffix : String) (before : List String) (dir : String)
        (after : List String) (k : Nat) (reportError : Bool),
      fileExists "" = false →
      (∀ d ∈ before, ∀ j : Nat, j < 10 →
        fileExists (ancestorPath j (joinPath d suffix)) = false) →
      k < 10 →
      fileExists (ancestorPath k (joinPath dir suffix)) = true →
      (∀ j : Nat, j < k → fileExists (ancestorPath j (joinPath dir suffix)) = false) →
      locateFile fileExists suffix (before ++ dir :: after) reportError =
        some (ancestorPath k (joinPath dir suffix))) ∧
    (∀ (fileExists : String → Bool) (suffix : String) (dirs : List String) (reportError : Bool),
      (∀ dir ∈ dirs, ∀ k : Nat, k < 10 →
        fileExists (ancestorPath k (joinPath dir suffix)) = false) →
      locateFile fileExists suffix dirs reportError =
        if reportError then none else some "") ∧
    (joinPath "data/x" "file" = "data/x/file" ∧ joinPath "data/x/" "file" = "data/x/file" ∧
      joinPath "" "file" = "file") ∧
    locateFile (fun p => p == "../../data/y/file") "file" ["data/x/", "data/y/"] true =
      some "../../data/y/file" ∧
    ancestorPath 10 (joinPath "data/y/" "file") = "../../../../../../../../../../data/y/file" ∧
    locateFile (fun p => p == "../../../../../../../../../../data/y/file") "file"
      ["data/x/", "data/y/"] true = none ∧
    locateFile (fun p => p == "../../../../../../../../../../data/y/file") "file"
      ["data/x/", "data/y/"] false = some "" := by
  refine ⟨rfl, ?_, ?_, by decide, by decide, by decide, by decide, by decide⟩
  · intro fileExists suffix before dir after k reportError hempty hbefore hk hex hlow
    exact locateFile_first fileExists suffix before dir after k reportError hempty hbefore
      hk hex hlow
  · intro fileExists suffix dirs reportError hall
    exact locateFile_none fileExists suffix dirs reportError hall

/-! ### The upload handler -/

theorem parsePGMData_length (pgm data : List UInt8) (hp : parsePGMData pgm = some data) :
    ∃ w h : Int,
      stoi (readToken (readToken pgm).2).1 = some w ∧
      stoi (readToken (readToken (readToken pgm).2).2).1 = some h ∧
      0 ≤ w * h ∧ ((data.length : Nat) : Int) = w * h := by
  unfold parsePGMData at hp
  simp only at hp
  cases hw : stoi (readToken (readToken pgm).2).1 with
  | none => simp [hw] at hp
  | some w =>
    cases hh : stoi (readToken (readToken (readToken pgm).2).2).1 with
    | none => simp [hw, hh] at hp
    | some h =>
      simp only [hw, hh] at hp
      by_cases hr : 0 ≤ w * h ∧ w * h < 2 ^ 31
      · rw [if_pos hr] at hp
        refine ⟨w, h, rfl, rfl, hr.1, ?_⟩
        rw [← Option.some.inj hp]
        simp only [List.length_append, List.length_replicate, List.length_take]
        have := Int.toNat_of_nonneg hr.1
        omega
      · rw [if_neg hr] at hp
        exact absurd hp (by simp)

set_option maxRecDepth 20000 in
theorem mnistPgm_inferred :
    handleUpload mnistPipeline okEnv mnistPgm =
      UploadOutcome.inferred (Outcome.returned
        (Inference.verifyOutput ratOps 10 [3, 0, 0, 0, 0, 0, 0, 0, 0, 0])) := by
  rfl

/-- C16, the behaviour of the code. The buffer that `parsePGMData` returns has
`stoi(w) * stoi(h)` bytes, the product of the two numbers of the uploaded
header, whatever the model's input extents are; `MnistApi::infer` copies
`inputH * inputW` bytes from it. For the one-pixel file `P5 1 1 255` the buffer
has 1 byte and the copy for the MNIST model reads 784 bytes from it, past its
end; for a 28 by 28 file the copy stays within the buffer. -/
theorem upload_reads_past_parsed_buffer :
    (∀ (pgm data : List UInt8), parsePGMData pgm = some data →
      ∃ w h : Int,
        stoi (readToken (readToken pgm).2).1 = some w ∧
        stoi (readToken (readToken (readToken pgm).2).2).1 = some h ∧
        0 ≤ w * h ∧ ((data.length : Nat) : Int) = w * h) ∧
    (∀ (α : Type) [LinearOrder α] (p : Inference) (env : InferEnv α) (body data : List UInt8),
      parsePGMData body = some data →
      data.length < (p.mInputDims.getD 2 0 * p.mInputDims.getD 3 0).toNat →
      handleUpload p env body =
        UploadOutcome.readPastEnd (p.mInputDims.getD 2 0 * p.mInputDims.getD 3 0).toNat
          data.length) ∧
    parsePGMData onePixelPgm = some [0] ∧
    (mnistPipeline.mInputDims.getD 2 0 * mnistPipeline.mInputDims.getD 3 0).toNat = 784 ∧
    handleUpload mnistPipeline okEnv onePixelPgm = UploadOutcome.readPastEnd 784 1 ∧
    handleUpload mnistPipeline okEnv mnistPgm =
      UploadOutcome.inferred (Outcome.returned 0) := by
  refine ⟨parsePGMData_length, ?_, by decide, by decide, by decide, ?_⟩
  · intro α _ p env body data hp hlt
    simp only [handleUpload, hp, MnistApi.infer]
    rw [if_neg (by omega)]
  · rw [mnistPgm_inferred, verifyOutput_class_zero]
    rfl

end TrtServer
